import Mathlib

/-! codeartoken: refreshing the CodeArtifact token of a Maven settings file.

A shallow embedding of `main.go`.  Go strings and byte slices are lists of
bytes; the functions of the program take the state of the world (file system
and trace of observable events) and return an outcome together with the new
state.  The Go standard library (`bytes`, `unicode/utf8`, `os`, `ioutil`),
`xmlquery` and the AWS SDK are not part of the repository: the pieces the
program calls are modelled from their documented behaviour, the remote service
and the XML parser being parameters of the environment.
-/

set_option autoImplicit false

namespace Codeartoken

/-! ## Go strings -/

/-- A byte. -/
abbrev Byte := Fin 256

/-- A Go `string` or `[]byte`: a sequence of bytes. -/
abbrev GoString := List Byte

/-- UTF-8 encoding of one code point. -/
def utf8EncodeChar (c : Char) : List Byte :=
  let v := c.toNat
  if v < 0x80 then [Fin.ofNat v]
  else if v < 0x800 then [Fin.ofNat (0xC0 + v / 64), Fin.ofNat (0x80 + v % 64)]
  else if v < 0x10000 then
    [Fin.ofNat (0xE0 + v / 4096), Fin.ofNat (0x80 + v / 64 % 64), Fin.ofNat (0x80 + v % 64)]
  else
    [Fin.ofNat (0xF0 + v / 262144), Fin.ofNat (0x80 + v / 4096 % 64),
      Fin.ofNat (0x80 + v / 64 % 64), Fin.ofNat (0x80 + v % 64)]

/-- The bytes of a string literal of the Go source (Go source text is UTF-8). -/
def str (s : String) : GoString := s.data.flatMap utf8EncodeChar

/-! ## Package `unicode/utf8` -/

/-- Table `first` of `unicode/utf8`: information about the first byte of an
encoding (`as = 0xF0`, `xx = 0xF1`, `s1 = 0x02`, ..., `s7 = 0x44`). -/
def first (b : Byte) : Nat :=
  if b.val < 0x80 then 0xF0
  else if b.val < 0xC2 then 0xF1
  else if b.val < 0xE0 then 0x02
  else if b.val = 0xE0 then 0x13
  else if b.val < 0xED then 0x03
  else if b.val = 0xED then 0x23
  else if b.val < 0xF0 then 0x03
  else if b.val = 0xF0 then 0x34
  else if b.val < 0xF4 then 0x04
  else if b.val = 0xF4 then 0x44
  else 0xF1

/-- Table `acceptRanges` of `unicode/utf8`: the range `(lo, hi)` accepted for
the second byte. -/
def acceptRanges (i : Nat) : Nat × Nat :=
  match i with
  | 0 => (0x80, 0xBF)
  | 1 => (0xA0, 0xBF)
  | 2 => (0x80, 0x9F)
  | 3 => (0x90, 0xBF)
  | 4 => (0x80, 0x8F)
  | _ => (0, 0)

/-- The `size` result of `utf8.DecodeRune(p)`: the width in bytes of the first
rune of `p`; `0` for the empty slice and `1` for an invalid encoding. -/
def decodeRuneSize (p : GoString) : Nat :=
  match p with
  | [] => 0
  | p0 :: rest =>
    let x := first p0
    if x ≥ 0xF0 then 1
    else
      let sz := x % 8
      let accept := acceptRanges (x / 16)
      if p.length < sz then 1
      else
        match rest with
        | [] => 1
        | b1 :: rest2 =>
          if b1.val < accept.1 ∨ accept.2 < b1.val then 1
          else if sz ≤ 2 then 2
          else
            match rest2 with
            | [] => 1
            | b2 :: rest3 =>
              if b2.val < 0x80 ∨ 0xBF < b2.val then 1
              else if sz ≤ 3 then 3
              else
                match rest3 with
                | [] => 1
                | b3 :: _ => if b3.val < 0x80 ∨ 0xBF < b3.val then 1 else 4

/-- Loop of `utf8.RuneCount`: one more rune per iteration, advancing by the
width of the rune at the current position (the loop decodes inline exactly as
`DecodeRune` does).  The first argument bounds the number of iterations. -/
def runeCountLoop : Nat → GoString → Nat → Nat
  | 0, _, n => n
  | fuel + 1, p, n =>
    if p.isEmpty then n else runeCountLoop fuel (p.drop (decodeRuneSize p)) (n + 1)

/-- Model of `utf8.RuneCount(p)`: the number of runes in `p`, an invalid byte counting
as one rune of width 1. -/
def RuneCount (p : GoString) : Nat := runeCountLoop p.length p 0

/-! ## Package `bytes` -/

/-- Model of `bytes.HasPrefix(s, prefix)`. -/
def HasPrefix (s pre : GoString) : Bool := pre.isPrefixOf s

/-- Model of `bytes.Index(s, sep)`: the index of the first instance of `sep` in `s`;
`none` stands for Go's `-1` (no instance). -/
def Index : GoString → GoString → Option Nat
  | [], sep => if sep.isEmpty then some 0 else none
  | c :: rest, sep =>
    if HasPrefix (c :: rest) sep then some 0
    else (Index rest sep).map (· + 1)

/-- Loop of `bytes.Count` for a non-empty separator:
`for { i := Index(s, sep); if i == -1 { return n }; n++; s = s[i+len(sep):] }`.
The first argument bounds the number of iterations. -/
def countLoop (sep : GoString) : Nat → GoString → Nat → Nat
  | 0, _, n => n
  | fuel + 1, s, n =>
    match Index s sep with
    | none => n
    | some i => countLoop sep fuel (s.drop (i + sep.length)) (n + 1)

/-- Model of `bytes.Count(s, sep)`: the number of non-overlapping instances of `sep` in
`s`; for an empty `sep`, one more than the number of runes of `s`. -/
def Count (s sep : GoString) : Nat :=
  if sep.length = 0 then RuneCount s + 1
  else countLoop sep (s.length + 1) s 0

/-- Loop of `bytes.Replace`, with `k` iterations left, loop counter `i`,
position `start` and `t` the part of the buffer written so far (`t[0:w]`; the
buffer is allocated with the exact final size, so `copy` never truncates):
```
j := start
if len(old) == 0 { if i > 0 { _, wid := utf8.DecodeRune(s[start:]); j += wid } }
else { j += Index(s[start:], old) }
w += copy(t[w:], s[start:j]); w += copy(t[w:], new); start = j + len(old)
```
and after the loop `w += copy(t[w:], s[start:])`.  `none` is a run-time panic
(slice bounds out of range). -/
def replaceLoop (s old new : GoString) : Nat → Nat → Nat → GoString → Option GoString
  | 0, _, start, t => if start ≤ s.length then some (t ++ s.drop start) else none
  | k + 1, i, start, t =>
    if start ≤ s.length then
      let j? : Option Nat :=
        if old.length = 0 then
          if i > 0 then some (start + decodeRuneSize (s.drop start)) else some start
        else (Index (s.drop start) old).map (start + ·)
      match j? with
      | none => none
      | some j =>
        if j ≤ s.length then
          replaceLoop s old new k (i + 1) (j + old.length) (t ++ (s.take j).drop start ++ new)
        else none
    else none

/-- Model of `bytes.Replace(s, old, new, n)`: a copy of `s` with the first `n`
non-overlapping instances of `old` replaced by `new` (no limit if `n < 0`). -/
def Replace (s old new : GoString) (n : Int) : Option GoString :=
  let m := if n ≠ 0 then Count s old else 0
  if m = 0 then some s
  else
    let n' : Nat := if n < 0 ∨ (m : Int) < n then m else n.toNat
    replaceLoop s old new n' 0 0 []

/-- Model of `bytes.ReplaceAll(s, old, new)`, which is `Replace(s, old, new, -1)`. -/
def ReplaceAll (s old new : GoString) : Option GoString := Replace s old new (-1)

/-! ## Specification of replacing every occurrence -/

/-- In `A ++ T ++ B` the instance of `T` after `A` is the first one: no
instance of `T` starts before position `A.length`. -/
def FirstAt (T A B : GoString) : Prop :=
  ∀ A' B' : GoString, A' ++ T ++ B' = A ++ T ++ B → A.length ≤ A'.length

/-- In `A ++ T ++ B` the instance of `T` after `A` is the only one. -/
def OccursOnce (T A B : GoString) : Prop :=
  ∀ A' B' : GoString, A' ++ T ++ B' = A ++ T ++ B → A' = A

/-- Following the spec's words: `ReplacedAll T1 T2 s out` says that `out` is
`s` with every non-overlapping instance of `T1`, taken from left to right,
replaced by `T2` and every other byte kept in its order. -/
inductive ReplacedAll (T1 T2 : GoString) : GoString → GoString → Prop
  | done (s : GoString) : ¬ T1 <:+: s → ReplacedAll T1 T2 s s
  | step (A B out : GoString) : FirstAt T1 A B → ReplacedAll T1 T2 B out →
      ReplacedAll T1 T2 (A ++ T1 ++ B) (A ++ T2 ++ out)

/-! ## Errors, outcomes and the state of the world -/

/-- A Go `error` value. -/
inductive GoError
  /-- An `*os.PathError`: operation, path and reason. -/
  | PathError (op : String) (path : GoString) (reason : String)
  /-- The result of `errors.New(msg)`. -/
  | errorString (msg : GoString)
  /-- An error made by a library (XML syntax error, AWS SDK error), with its message. -/
  | library (msg : GoString)
  deriving DecidableEq

/-- The method `Error()` of an error: its message. -/
def GoError.Error : GoError → GoString
  | .PathError op path reason => str op ++ str " " ++ path ++ str ": " ++ str reason
  | .errorString msg => msg
  | .library msg => msg

/-- Model of `errors.New`. -/
def errors.New (msg : GoString) : GoError := .errorString msg

/-- How the call of a Go function ends. -/
inductive Outcome (α : Type)
  /-- The function returned a value. -/
  | returned (a : α)
  /-- The process ended in `os.Exit(code)`. -/
  | exited (code : Nat)
  /-- A run-time panic (nil dereference, slice out of range). -/
  | panicked
  deriving DecidableEq

/-- The exit status of the process when the top-level call ends with this outcome. -/
def Outcome.exitStatus {α : Type} : Outcome α → Nat
  | .returned _ => 0
  | .exited code => code
  | .panicked => 2

/-- Levels of the `logrus` logger used by the program. -/
inductive Level
  | Debug | Info | Fatal
  deriving DecidableEq

/-- Observable events, in the order they happen. -/
inductive Event
  /-- A call of the logger with the formatted message. -/
  | log (level : Level) (msg : GoString)
  /-- A call `os.Open(path)`. -/
  | osOpen (path : GoString)
  /-- A call `Close()` on the file opened at `path`. -/
  | fileClose (path : GoString)
  /-- A call `ioutil.ReadFile(path)`. -/
  | readFile (path : GoString)
  /-- A call `ioutil.WriteFile(path, data, 0644)`. -/
  | writeFile (path : GoString) (data : GoString)
  /-- A call `config.LoadDefaultConfig`. -/
  | loadDefaultConfig
  /-- A call of the remote operation `GetAuthorizationToken`. -/
  | getAuthorizationToken (domain owner : GoString)
  /-- The help text printed by `cli.ShowAppHelpAndExit`. -/
  | showHelp
  deriving DecidableEq

/-- A file: its content and whether the process may read and write it. -/
structure File where
  data : GoString
  readable : Bool
  writable : Bool
  deriving DecidableEq

/-- The state of the world: the file system (path to file, `none` when there is
no such file) and the trace of events so far. -/
structure World where
  fs : GoString → Option File
  trace : List Event

/-- Append an event to the trace. -/
def World.emit (w : World) (e : Event) : World := { w with trace := w.trace ++ [e] }

/-- Model of `os.Open(name)`: opens the file for reading; fails when there is no such
file or it is not readable. -/
def os.Open (name : GoString) (w : World) : Except GoError File × World :=
  let w := w.emit (.osOpen name)
  match w.fs name with
  | none => (.error (.PathError "open" name "no such file or directory"), w)
  | some f =>
    if f.readable then (.ok f, w)
    else (.error (.PathError "open" name "permission denied"), w)

/-- Model of `ioutil.ReadFile(filename)`: the whole content of the file. -/
def ioutil.ReadFile (filename : GoString) (w : World) : Except GoError GoString × World :=
  let w := w.emit (.readFile filename)
  match w.fs filename with
  | none => (.error (.PathError "open" filename "no such file or directory"), w)
  | some f =>
    if f.readable then (.ok f.data, w)
    else (.error (.PathError "open" filename "permission denied"), w)

/-- Model of `ioutil.WriteFile(filename, data, 0644)`: truncates the file (creating it
with mode 0644 when there is none) and writes `data`; fails, leaving the file as
it is, when the file is not writable.  The result is the error (`none` is
`nil`). -/
def ioutil.WriteFile (filename : GoString) (data : GoString) (w : World) :
    Option GoError × World :=
  let w := w.emit (.writeFile filename data)
  match w.fs filename with
  | none =>
    (none, { w with fs := fun p =>
      if p = filename then some { data := data, readable := true, writable := true } else w.fs p })
  | some f =>
    if f.writable then
      (none, { w with fs := fun p => if p = filename then some { f with data := data } else w.fs p })
    else (some (.PathError "open" filename "permission denied"), w)

/-- Model of `log.Debug`, `log.Debugf`: the formatted message goes to the logger. -/
def log.Debug (msg : GoString) (w : World) : World := w.emit (.log .Debug msg)

/-- Model of `log.Info`, `log.Infof`. -/
def log.Info (msg : GoString) (w : World) : World := w.emit (.log .Info msg)

/-- Model of `log.Fatal`, `log.Fatalf`: logs the message, then calls `os.Exit(1)`. -/
def log.Fatal {α : Type} (msg : GoString) (w : World) : Outcome α × World :=
  (.exited 1, w.emit (.log .Fatal msg))

/-! ## Package `xmlquery` -/

/-- The type of a node of an XML document (`xmlquery.NodeType`). -/
inductive NodeType
  | DocumentNode | DeclarationNode | ElementNode | TextNode | CharDataNode | CommentNode
  | AttributeNode
  deriving DecidableEq

/-- A node of a parsed XML document (`xmlquery.Node`): its type, its `Data`
(element name, or text) and its children in document order. -/
inductive Node
  | mk (type : NodeType) (Data : GoString) (children : List Node)

/-- Field `Type` of a node. -/
def Node.type : Node → NodeType
  | .mk t _ _ => t

/-- Field `Data` of a node. -/
def Node.Data : Node → GoString
  | .mk _ d _ => d

/-- The children of a node (`FirstChild`, then `NextSibling`). -/
def Node.children : Node → List Node
  | .mk _ _ cs => cs

mutual
/-- Model of `(*Node).InnerText()`: the text of the node and of its descendants, in
document order; comments contribute nothing. -/
def Node.InnerText : Node → GoString
  | .mk t d cs =>
    match t with
    | .TextNode => d
    | .CharDataNode => d
    | .CommentNode => []
    | _ => InnerTextList cs
/-- The concatenated inner text of a list of sibling nodes. -/
def InnerTextList : List Node → GoString
  | [] => []
  | n :: ns => n.InnerText ++ InnerTextList ns
end

/-- The child elements of `n` named `name`, in document order (the XPath step
`child::name`). -/
def Node.childElements (n : Node) (name : GoString) : List Node :=
  n.children.filter (fun c => decide (c.type = .ElementNode) && decide (c.Data = name))

/-- Model of `(*Node).SelectElement(name)` for a plain element name: the first child
element with that name, `none` (a nil pointer) when there is none. -/
def Node.SelectElement (n : Node) (name : GoString) : Option Node :=
  (n.childElements name).head?

/-- The steps of an absolute location path `/a/b/c` made of element names. -/
def pathSteps (expr : GoString) : List GoString :=
  (expr.splitOn (47 : Byte)).drop 1

/-- Model of `xmlquery.Find(top, expr)` for the document node `top` and an absolute path
`expr` of element names: all nodes reached by following the child steps from
the root, in document order. -/
def Find (top : Node) (expr : GoString) : List Node :=
  (pathSteps expr).foldl (fun nodes name => nodes.flatMap (fun n => n.childElements name)) [top]

/-! ### A parser for a fragment of XML

`xmlquery.Parse` is a parameter of the environment.  The parser below is used
to build concrete environments: it covers documents made of one root element,
start and end tags without attributes, and character data of printable ASCII
bytes without white space, `<`, `>` or `&`.  On these documents every XML
parser yields the same tree.  An input outside this fragment is answered with
an error, which says nothing about what the library does with it. -/

/-- Tokens of the fragment. -/
inductive Token
  | startTag (name : GoString)
  | endTag (name : GoString)
  | text (data : GoString)
  deriving DecidableEq

/-- States of the tokenizer: inside character data, just after `<`, inside a
start tag, inside an end tag. -/
inductive LexState
  | text (acc : GoString)
  | tagStart
  | openTag (acc : GoString)
  | closeTag (acc : GoString)

/-- ASCII letters and `_`. -/
def isNameStart (c : Byte) : Bool :=
  (65 ≤ c.val && c.val ≤ 90) || (97 ≤ c.val && c.val ≤ 122) || c.val = 95

/-- Name bytes: letters, digits, `_`, `-`, `.`. -/
def isNameByte (c : Byte) : Bool :=
  isNameStart c || (48 ≤ c.val && c.val ≤ 57) || c.val = 45 || c.val = 46

/-- Bytes allowed in character data of the fragment. -/
def isTextByte (c : Byte) : Bool :=
  33 ≤ c.val && c.val ≤ 126 && c.val ≠ 60 && c.val ≠ 62 && c.val ≠ 38

/-- The error answered for an input that is malformed or outside the fragment. -/
def xmlError : GoError := .library (str "XML syntax error")

/-- The tokenizer of the fragment. -/
def lex : LexState → GoString → Except GoError (List Token)
  | .text acc, [] => if acc.isEmpty then .ok [] else .ok [.text acc]
  | .text acc, c :: rest =>
    if c.val = 60 then
      match lex .tagStart rest with
      | .ok ts => if acc.isEmpty then .ok ts else .ok (.text acc :: ts)
      | .error e => .error e
    else if isTextByte c then lex (.text (acc ++ [c])) rest
    else .error xmlError
  | .tagStart, [] => .error xmlError
  | .tagStart, c :: rest =>
    if c.val = 47 then lex (.closeTag []) rest
    else if isNameStart c then lex (.openTag [c]) rest
    else .error xmlError
  | .openTag _, [] => .error xmlError
  | .openTag acc, c :: rest =>
    if c.val = 62 then
      match lex (.text []) rest with
      | .ok ts => .ok (.startTag acc :: ts)
      | .error e => .error e
    else if isNameByte c then lex (.openTag (acc ++ [c])) rest
    else .error xmlError
  | .closeTag _, [] => .error xmlError
  | .closeTag acc, c :: rest =>
    if c.val = 62 then
      if acc.isEmpty then .error xmlError
      else
        match lex (.text []) rest with
        | .ok ts => .ok (.endTag acc :: ts)
        | .error e => .error e
    else if (if acc.isEmpty then isNameStart c else isNameByte c) then
      lex (.closeTag (acc ++ [c])) rest
    else .error xmlError

/-- Builds the tree from the tokens: `stack` holds the open elements, innermost
first, each with its children so far; `top` is the root element once closed. -/
def build : List Token → List (GoString × List Node) → Option Node → Except GoError Node
  | [], [], some root => .ok (.mk .DocumentNode [] [root])
  | [], [], none => .error xmlError
  | [], _ :: _, _ => .error xmlError
  | .startTag name :: ts, stack, top =>
    if stack.isEmpty && top.isSome then .error xmlError
    else build ts ((name, []) :: stack) top
  | .text _ :: _, [], _ => .error xmlError
  | .text d :: ts, (name, cs) :: stack, top =>
    build ts ((name, cs ++ [.mk .TextNode d []]) :: stack) top
  | .endTag _ :: _, [], _ => .error xmlError
  | .endTag name :: ts, (open_, cs) :: stack, top =>
    if name = open_ then
      match stack with
      | [] => build ts [] (some (.mk .ElementNode name cs))
      | (parent, ps) :: stack' => build ts ((parent, ps ++ [.mk .ElementNode name cs]) :: stack') top
    else .error xmlError

/-- The parser of the fragment. -/
def parseXml (input : GoString) : Except GoError Node :=
  match lex (.text []) input with
  | .ok ts => build ts [] none
  | .error e => .error e

/-! ## The AWS SDK -/

/-- Model of `codeartifact.GetAuthorizationTokenOutput`; the token is a `*string`. -/
structure GetAuthorizationTokenOutput where
  AuthorizationToken : Option GoString

/-- Model of `aws.ToString(p)`: the string pointed to, or `""` for a nil pointer. -/
def aws.ToString (p : Option GoString) : GoString :=
  match p with
  | some s => s
  | none => []

/-- The libraries whose behaviour is a parameter: the XML parser and the
remote service. -/
structure Env where
  /-- The function `xmlquery.Parse` applied to the content of the opened file. -/
  Parse : GoString → Except GoError Node
  /-- The error returned by `config.LoadDefaultConfig` (`none` is `nil`). -/
  LoadDefaultConfig : Option GoError
  /-- The pair returned by `client.GetAuthorizationToken` for a domain and a
  domain owner: the output pointer (`none` is `nil`) and the error. -/
  GetAuthorizationToken : GoString → GoString →
    Option GetAuthorizationTokenOutput × Option GoError

/-! ## The program -/

/-- Configuration stores Maven and CodeArtifact related information. -/
structure Configuration where
  domain : GoString
  domainOwner : GoString
  server : GoString
  settings : GoString

/-- Get CodeArtifact Authentication Token using AWS Credentials.  The error of
`GetAuthorizationToken` is assigned and never read; `output.AuthorizationToken`
dereferences `output`. -/
def getCodeArtifactToken (env : Env) (cfg : Configuration) (w : World) :
    Outcome (GoString × Option GoError) × World :=
  let w := w.emit .loadDefaultConfig
  match env.LoadDefaultConfig with
  | some err => (.returned ([], some err), w)
  | none =>
    let w := w.emit (.getAuthorizationToken cfg.domain cfg.domainOwner)
    match env.GetAuthorizationToken cfg.domain cfg.domainOwner with
    | (none, _) => (.panicked, w)
    | (some output, _) =>
      let token := aws.ToString output.AuthorizationToken
      (.returned (token, none), log.Debug (str "CodeArtifact Token: " ++ token) w)

/-- The loop `for _, node := range nodes` of `getCodeArtifactTokenFromSettings`:
`returned (some password)` is the `return password, nil` of the loop body,
`returned none` the end of the loop. -/
def serverLoop (cfg : Configuration) : List Node → World → Outcome (Option GoString) × World
  | [], w => (.returned none, w)
  | node :: rest, w =>
    match node.SelectElement (str "id") with
    | none => (.panicked, w)
    | some element =>
      if element.InnerText = cfg.server then
        match node.SelectElement (str "password") with
        | none => (.panicked, w)
        | some p =>
          let password := p.InnerText
          (.returned (some password), log.Debug (str "CodeArtifact Maven Password: " ++ password) w)
      else serverLoop cfg rest w

/-- Get currently used CodeArtifact Token present in the maven settings XML file. -/
def getCodeArtifactTokenFromSettings (env : Env) (cfg : Configuration) (w : World) :
    Outcome (GoString × Option GoError) × World :=
  match os.Open cfg.settings w with
  | (.error err, w) => (.returned ([], some err), w)
  | (.ok xmlFile, w) =>
    match env.Parse xmlFile.data with
    | .error err => (.returned ([], some err), w)
    | .ok doc =>
      let nodes := Find doc (str "/settings/servers/server")
      match serverLoop cfg nodes w with
      | (.returned (some password), w) => (.returned (password, none), w)
      | (.returned none, w) =>
        (.returned ([], some (errors.New (str "Could not find server " ++ cfg.server))),
          w.emit (.fileClose cfg.settings))
      | (.exited code, w) => (.exited code, w)
      | (.panicked, w) => (.panicked, w)

/-- Update Maven settings with the new CodeArtifact token. -/
def updateSettings (cfg : Configuration) (existingToken newToken : GoString) (w : World) :
    Outcome Unit × World :=
  match ioutil.ReadFile cfg.settings w with
  | (.error err, w) => log.Fatal err.Error w
  | (.ok input, w) =>
    match ReplaceAll input existingToken newToken with
    | none => (.panicked, w)
    | some output =>
      match ioutil.WriteFile cfg.settings output w with
      | (some err, w) => log.Fatal err.Error w
      | (none, w) => (.returned (), log.Info (str "✅ Updated token!") w)

/-- The three `log.Infof` calls at the start of `manageTokens`. -/
def logConfiguration (cfg : Configuration) (w : World) : World :=
  let w := log.Info (str "Using owner: " ++ cfg.domain) w
  let w := log.Info (str "Using domain owner: " ++ cfg.domainOwner) w
  log.Info (str "Using server: " ++ cfg.server) w

/-- Main entrypoint for managing the CodeArtifact tokens for Maven. -/
def manageTokens (env : Env) (cfg : Configuration) (w : World) :
    Outcome (Option GoError) × World :=
  let w := logConfiguration cfg w
  match getCodeArtifactTokenFromSettings env cfg w with
  | (.exited code, w) => (.exited code, w)
  | (.panicked, w) => (.panicked, w)
  | (.returned (existingToken, err), w) =>
    if existingToken = [] ∨ err ≠ none then (.returned err, w)
    else
      match getCodeArtifactToken env cfg w with
      | (.exited code, w) => (.exited code, w)
      | (.panicked, w) => (.panicked, w)
      | (.returned (newToken, err), w) =>
        if newToken = [] ∨ err ≠ none then (.returned err, w)
        else
          match updateSettings cfg existingToken newToken w with
          | (.exited code, w) => (.exited code, w)
          | (.panicked, w) => (.panicked, w)
          | (.returned (), w) => (.returned none, w)

/-- The `Action` of the command-line application in `main`; `numFlags` is
`c.NumFlags()`, the number of flags set on the command line, and `cfg` the
configuration the flags were stored into. -/
def mainAction (env : Env) (numFlags : Nat) (cfg : Configuration) (w : World) :
    Outcome (Option GoError) × World :=
  if numFlags = 0 then (.exited 0, w.emit .showHelp)
  else
    match manageTokens env cfg w with
    | (.exited code, w) => (.exited code, w)
    | (.panicked, w) => (.panicked, w)
    | (.returned (some err), w) => log.Fatal (str "Encountered exception, exiting: " ++ err.Error) w
    | (.returned none, w) => (.returned none, w)

/-! ## Specification of the settings reader -/

/-- The server the reader selects: among the `/settings/servers/server`
elements of `doc`, in document order, `node` is the first whose `id` child has
text `server`, every element before it has an `id` child (with another text),
and the `password` child of `node` has text `password`. -/
def FirstServer (doc : Node) (server password : GoString) : Prop :=
  ∃ (before : List Node) (node : Node) (after : List Node),
    Find doc (str "/settings/servers/server") = before ++ node :: after ∧
    (∀ n ∈ before, ∃ e, n.SelectElement (str "id") = some e ∧ e.InnerText ≠ server) ∧
    (∃ e, node.SelectElement (str "id") = some e ∧ e.InnerText = server) ∧
    (∃ p, node.SelectElement (str "password") = some p ∧ p.InnerText = password)

/-- No `/settings/servers/server` element of `doc` has an `id` child with text
`server`, and each of them has an `id` child. -/
def NoServer (doc : Node) (server : GoString) : Prop :=
  ∀ n ∈ Find doc (str "/settings/servers/server"),
    ∃ e, n.SelectElement (str "id") = some e ∧ e.InnerText ≠ server

/-! ## Concrete settings files and environments -/

/-- A settings path. -/
def settingsPath : GoString := str "/home/user/.m2/settings.xml"

/-- A configuration with the default server id `codeartifact`. -/
def exampleCfg : Configuration :=
  { domain := str "my-domain", domainOwner := str "123456789012",
    server := str "codeartifact", settings := settingsPath }

/-- A world whose only file is the settings file, readable and writable, with
the given content. -/
def worldWith (content : GoString) : World :=
  { fs := fun p =>
      if p = settingsPath then some { data := content, readable := true, writable := true }
      else none
    trace := [] }

/-- A world without any file. -/
def emptyWorld : World := { fs := fun _ => none, trace := [] }

/-- An environment whose remote service answers with the token `newToken`. -/
def exampleEnv (newToken : GoString) : Env :=
  { Parse := parseXml
    LoadDefaultConfig := none
    GetAuthorizationToken := fun _ _ => (some { AuthorizationToken := some newToken }, none) }

/-- An environment whose remote call fails with the error `e`: the SDK returns
a nil output and `e`. -/
def failingEnv (e : GoError) : Env :=
  { Parse := parseXml
    LoadDefaultConfig := none
    GetAuthorizationToken := fun _ _ => (none, some e) }

/-- The text `<server><id>ID</id><password>PASSWORD</password></server>`. -/
def serverXml (id password : GoString) : GoString :=
  str "<server><id>" ++ id ++ str "</id><password>" ++ password ++ str "</password></server>"

/-- The text `<settings><servers>SERVERS</servers></settings>`. -/
def settingsXml (servers : GoString) : GoString :=
  str "<settings><servers>" ++ servers ++ str "</servers></settings>"

/-- An element node. -/
def elem (name : String) (children : List Node) : Node := .mk .ElementNode (str name) children

/-- An element node holding one text node. -/
def textElem (name : String) (text : GoString) : Node :=
  .mk .ElementNode (str name) [.mk .TextNode text []]

/-- The document of a settings file with the given `server` elements. -/
def settingsDoc (servers : List Node) : Node :=
  .mk .DocumentNode [] [elem "settings" [elem "servers" servers]]

/-- The element `<server><id>ID</id><password>PASSWORD</password></server>`. -/
def serverNode (id password : GoString) : Node :=
  elem "server" [textElem "id" id, textElem "password" password]

/-- One server `codeartifact` with password `OLD123`. -/
def fileOneServer : GoString := settingsXml (serverXml (str "codeartifact") (str "OLD123"))

/-- The server `codeartifact` followed by a server `other` with the same password. -/
def fileSamePassword : GoString :=
  settingsXml (serverXml (str "codeartifact") (str "OLD123") ++
    serverXml (str "other") (str "OLD123"))

/-- A server without `id` (it has a user name only) before the server `codeartifact`. -/
def fileServerWithoutIdFirst : GoString :=
  settingsXml (str "<server><username>admin</username></server>" ++
    serverXml (str "codeartifact") (str "OLD123"))

/-- One server, without `id`. -/
def fileServerWithoutId : GoString :=
  settingsXml (str "<server><username>admin</username><password>secret</password></server>")

/-- One server `codeartifact` whose password `art` also occurs inside the id. -/
def filePasswordInsideId : GoString := settingsXml (serverXml (str "codeartifact") (str "art"))

/-- The password of the server `codeartifact` is split by an empty child
element, so that its inner text is `OLD123`; the bytes `OLD123` occur once, as
the password of the server `other`. -/
def fileSplitPassword : GoString :=
  settingsXml (str "<server><id>codeartifact</id><password>OLD<b></b>123</password></server>" ++
    serverXml (str "other") (str "OLD123"))

/-- One server `codeartifact` with an empty password. -/
def fileEmptyPassword : GoString :=
  settingsXml (str "<server><id>codeartifact</id><password></password></server>")

/-! ## Tokens, text substitution and text counting (for the round trip) -/

/-- The text of a token: `<name>`, `</name>` or the character data. -/
def Token.render : Token → GoString
  | .startTag name => [60] ++ name ++ [62]
  | .endTag name => [60, 47] ++ name ++ [62]
  | .text data => data

/-- The text of a sequence of tokens. -/
def renderTokens : List Token → GoString
  | [] => []
  | t :: ts => t.render ++ renderTokens ts

/-- A name of the fragment: a name start byte followed by name bytes. -/
def validName : GoString → Bool
  | [] => false
  | c :: cs => isNameStart c && cs.all isNameByte

/-- A token of the fragment: a tag with a valid name, or non-empty character
data made of text bytes. -/
def Token.valid : Token → Bool
  | .startTag name => validName name
  | .endTag name => validName name
  | .text data => !data.isEmpty && data.all isTextByte

/-- Whether the token is character data. -/
def Token.isText : Token → Bool
  | .text _ => true
  | _ => false

/-- A token sequence the tokenizer can produce: valid tokens, no two
character data tokens next to each other. -/
def lexValid : List Token → Bool
  | [] => true
  | t :: ts => t.valid && !(t.isText && (ts.head?.map Token.isText).getD false) && lexValid ts

/-- Replace the text `T1` by `T2`, leave any other text as it is. -/
def swapText (T1 T2 : GoString) (d : GoString) : GoString := if d = T1 then T2 else d

/-- Apply `g` to the character data of a token. -/
def Token.mapText (g : GoString → GoString) : Token → Token
  | .text data => .text (g data)
  | t => t

mutual
/-- Apply `g` to the data of every text node of the tree. -/
def Node.mapText (g : GoString → GoString) : Node → Node
  | .mk t d cs => .mk t (if t = .TextNode then g d else d) (mapTextList g cs)
/-- Apply `g` to the data of every text node of the trees. -/
def mapTextList (g : GoString → GoString) : List Node → List Node
  | [] => []
  | n :: ns => n.mapText g :: mapTextList g ns
end

mutual
/-- The number of text nodes of the tree whose data is `T`. -/
def Node.countText (T : GoString) : Node → Nat
  | .mk t d cs => (if t = .TextNode ∧ d = T then 1 else 0) + countTextList T cs
/-- The number of text nodes of the trees whose data is `T`. -/
def countTextList (T : GoString) : List Node → Nat
  | [] => 0
  | n :: ns => n.countText T + countTextList T ns
end

/-- The server the reader selects holds its password as plain text: as
`FirstServer`, and the `password` child of the selected server has the single
child `password`, a text node. -/
def SelectedPlainPassword (doc : Node) (server password : GoString) : Prop :=
  ∃ (before : List Node) (node : Node) (after : List Node),
    Find doc (str "/settings/servers/server") = before ++ node :: after ∧
    (∀ n ∈ before, ∃ e, n.SelectElement (str "id") = some e ∧ e.InnerText ≠ server) ∧
    (∃ e, node.SelectElement (str "id") = some e ∧ e.InnerText = server) ∧
    node.SelectElement (str "password") =
      some (.mk .ElementNode (str "password") [.mk .TextNode password []])

/-! ## Lemmas on `bytes.Index` -/

theorem hasPrefix_iff (s sep : GoString) : HasPrefix s sep = true ↔ sep <+: s := by
  simp [HasPrefix]

theorem index_eq_none_iff (s sep : GoString) : Index s sep = none ↔ ¬ sep <:+: s := by
  induction s with
  | nil =>
    cases sep with
    | nil => simp [Index]
    | cons a l => simp [Index]
  | cons c rest ih =>
    unfold Index
    by_cases hp : HasPrefix (c :: rest) sep = true
    · have hq := (hasPrefix_iff _ _).1 hp
      simp [hp, hq.isInfix]
    · have hq : ¬ sep <+: c :: rest := fun h => hp ((hasPrefix_iff _ _).2 h)
      simp only [hp, Bool.false_eq_true, if_false, Option.map_eq_none', ih, List.infix_cons_iff, hq,
        false_or]

theorem index_eq_some (s sep : GoString) (k : Nat) (h : Index s sep = some k) :
    ∃ A B : GoString, s = A ++ sep ++ B ∧ A.length = k ∧ FirstAt sep A B := by
  induction s generalizing k with
  | nil =>
    cases sep with
    | nil =>
      simp [Index] at h
      subst h
      exact ⟨[], [], rfl, rfl, fun A' B' _ => Nat.zero_le _⟩
    | cons a l => simp [Index] at h
  | cons c rest ih =>
    unfold Index at h
    by_cases hp : HasPrefix (c :: rest) sep = true
    · simp [hp] at h
      subst h
      obtain ⟨B, hB⟩ := (hasPrefix_iff _ _).1 hp
      exact ⟨[], B, by simp [hB], rfl, fun A' B' _ => Nat.zero_le _⟩
    · have hq : ¬ sep <+: c :: rest := fun h => hp ((hasPrefix_iff _ _).2 h)
      simp only [hp, Bool.false_eq_true, if_false, Option.map_eq_some'] at h
      obtain ⟨k', hk', rfl⟩ := h
      obtain ⟨A, B, hs, hA, hfirst⟩ := ih k' hk'
      refine ⟨c :: A, B, by simp [hs], by simp [hA], ?_⟩
      intro A' B' heq
      cases A' with
      | nil =>
        exfalso
        apply hq
        refine ⟨B', ?_⟩
        simpa [hs] using heq
      | cons a A'' =>
        simp only [List.cons_append, List.cons.injEq] at heq
        have := hfirst A'' B' heq.2
        simp only [List.length_cons]
        omega

theorem index_some_length (s sep : GoString) (k : Nat) (h : Index s sep = some k) :
    k + sep.length ≤ s.length := by
  obtain ⟨A, B, hs, hA, _⟩ := index_eq_some s sep k h
  subst hs
  simp only [List.length_append]
  omega

/-! ## Lemmas on `bytes.Count` -/

theorem countLoop_acc (sep : GoString) (fuel : Nat) (s : GoString) (n : Nat) :
    countLoop sep fuel s n = n + countLoop sep fuel s 0 := by
  induction fuel generalizing s n with
  | zero => simp [countLoop]
  | succ fuel ih =>
    unfold countLoop
    cases hI : Index s sep with
    | none => simp
    | some i =>
      simp only
      rw [ih _ (n + 1), ih _ (0 + 1)]
      omega

theorem countLoop_fuel (sep : GoString) (hsep : sep ≠ []) (f1 f2 : Nat) (s : GoString) (n : Nat)
    (h1 : s.length < f1) (h2 : s.length < f2) :
    countLoop sep f1 s n = countLoop sep f2 s n := by
  induction f1 generalizing f2 s n with
  | zero => omega
  | succ f1 ih =>
    cases f2 with
    | zero => omega
    | succ f2 =>
      unfold countLoop
      cases hI : Index s sep with
      | none => rfl
      | some i =>
        simp only
        have hlen := index_some_length s sep i hI
        have hpos : 0 < sep.length := List.length_pos.2 hsep
        apply ih
        · simp only [List.length_drop]; omega
        · simp only [List.length_drop]; omega

theorem count_unfold (s sep : GoString) (hsep : sep ≠ []) :
    Count s sep =
      match Index s sep with
      | none => 0
      | some i => Count (s.drop (i + sep.length)) sep + 1 := by
  have hpos : 0 < sep.length := List.length_pos.2 hsep
  have hne : sep.length ≠ 0 := by omega
  unfold Count
  simp only [hne, if_false]
  rw [countLoop]
  cases hI : Index s sep with
  | none => rfl
  | some i =>
    simp only
    have hlen := index_some_length s sep i hI
    rw [countLoop_acc]
    rw [countLoop_fuel sep hsep s.length ((s.drop (i + sep.length)).length + 1) _ 0
      (by simp only [List.length_drop]; omega) (by omega)]
    rw [Nat.zero_add, Nat.add_comm]

/-! ## `bytes.Replace` replaces every instance -/

theorem replaceLoop_spec (s old new : GoString) (hold : old ≠ []) (k : Nat) :
    ∀ (i start : Nat) (t : GoString), start ≤ s.length → Count (s.drop start) old = k →
      ∃ out, replaceLoop s old new k i start t = some (t ++ out) ∧
        ReplacedAll old new (s.drop start) out := by
  have hpos : 0 < old.length := List.length_pos.2 hold
  have hne : old.length ≠ 0 := by omega
  induction k with
  | zero =>
    intro i start t hstart hcount
    rw [count_unfold _ _ hold] at hcount
    cases hI : Index (s.drop start) old with
    | none =>
      refine ⟨s.drop start, by simp [replaceLoop, hstart], ?_⟩
      exact ReplacedAll.done _ ((index_eq_none_iff _ _).1 hI)
    | some i0 => simp [hI] at hcount
  | succ k ih =>
    intro i start t hstart hcount
    rw [count_unfold _ _ hold] at hcount
    cases hI : Index (s.drop start) old with
    | none => simp [hI] at hcount
    | some i0 =>
      simp only [hI, Nat.add_right_cancel_iff] at hcount
      obtain ⟨A, B, hs, hA, hfirst⟩ := index_eq_some _ _ _ hI
      have hlen := index_some_length _ _ _ hI
      simp only [List.length_drop] at hlen
      have hdrop : s.drop (start + i0 + old.length) = B := by
        have : s.drop (start + i0 + old.length) = (s.drop start).drop (i0 + old.length) := by
          rw [List.drop_drop]; congr 1; omega
        rw [this, hs, ← hA, List.append_assoc, List.drop_append]
        simp
      have htake : (s.take (start + i0)).drop start = A := by
        rw [List.drop_take]
        simp only [Nat.add_sub_cancel_left]
        rw [hs, ← hA, List.append_assoc, List.take_left]
      rw [List.drop_drop] at hcount
      have hcount' : Count (s.drop (start + i0 + old.length)) old = k := by
        rw [← hcount]; congr 2; omega
      obtain ⟨out, hloop, hrep⟩ := ih (i + 1) (start + i0 + old.length) (t ++ A ++ new)
        (by omega) hcount'
      refine ⟨A ++ new ++ out, ?_, ?_⟩
      · unfold replaceLoop
        have hj : start + i0 ≤ s.length := by omega
        simp only [hstart, if_true, hne, if_false, hI, Option.map_some', hj, htake]
        rw [hloop]
        simp [List.append_assoc]
      · rw [hs]
        rw [hdrop] at hrep
        exact ReplacedAll.step A B out hfirst hrep

theorem replaceAll_spec (s old new : GoString) (hold : old ≠ []) :
    ∃ out, ReplaceAll s old new = some out ∧ ReplacedAll old new s out := by
  unfold ReplaceAll Replace
  simp only [ne_eq, Int.reduceNeg, Int.neg_eq_zero, one_ne_zero, not_false_eq_true, if_true,
    Int.reduceNeg, Left.neg_neg_iff, zero_lt_one, true_or]
  by_cases hm : Count s old = 0
  · simp only [hm, if_true]
    refine ⟨s, rfl, ?_⟩
    rw [count_unfold _ _ hold] at hm
    cases hI : Index s old with
    | none => exact ReplacedAll.done _ ((index_eq_none_iff _ _).1 hI)
    | some i0 => simp [hI] at hm
  · simp only [hm, if_false]
    obtain ⟨out, h1, h2⟩ := replaceLoop_spec s old new hold (Count s old) 0 0 [] (Nat.zero_le _)
      (by simp)
    exact ⟨out, by simpa using h1, by simpa using h2⟩

/-! ## Consequences of the specification -/

theorem replacedAll_inv (T1 T2 s o : GoString) (h : ReplacedAll T1 T2 s o) :
    (¬ T1 <:+: s ∧ o = s) ∨
      ∃ A B out, s = A ++ T1 ++ B ∧ FirstAt T1 A B ∧ ReplacedAll T1 T2 B out ∧
        o = A ++ T2 ++ out := by
  cases h with
  | done _ hn => exact Or.inl ⟨hn, rfl⟩
  | step A B out hf hr => exact Or.inr ⟨A, B, out, rfl, hf, hr, rfl⟩

theorem infix_mid (T A B : GoString) : T <:+: A ++ T ++ B := ⟨A, B, rfl⟩

theorem replacedAll_of_absent (T1 T2 s o : GoString) (hn : ¬ T1 <:+: s)
    (h : ReplacedAll T1 T2 s o) : o = s := by
  rcases replacedAll_inv _ _ _ _ h with ⟨_, ho⟩ | ⟨A, B, out, hs, _, _, _⟩
  · exact ho
  · exact absurd (hs ▸ infix_mid T1 A B) hn

theorem replacedAll_functional (T1 T2 s o1 o2 : GoString) (h1 : ReplacedAll T1 T2 s o1)
    (h2 : ReplacedAll T1 T2 s o2) : o1 = o2 := by
  induction h1 generalizing o2 with
  | done s hn => exact (replacedAll_of_absent _ _ _ _ hn h2).symm
  | step A B out hf _ ih =>
    rcases replacedAll_inv _ _ _ _ h2 with ⟨hn, _⟩ | ⟨A', B', out', hs, hf', hr', ho⟩
    · exact absurd (infix_mid T1 A B) hn
    · have hlen : A.length = A'.length :=
        Nat.le_antisymm (hf A' B' hs.symm) (hf' A B hs)
      have hs' : A ++ (T1 ++ B) = A' ++ (T1 ++ B') := by simpa [List.append_assoc] using hs
      obtain ⟨hA, hB⟩ := List.append_inj hs' hlen
      have hB' : B = B' := List.append_cancel_left hB
      subst hA hB'
      rw [ho, ih out' hr']

theorem replacedAll_self (T s o : GoString) (h : ReplacedAll T T s o) : o = s := by
  induction h with
  | done s _ => rfl
  | step A B out _ _ ih => rw [ih]

theorem replacedAll_once (T1 T2 A B o : GoString) (hT : T1 ≠ []) (honce : OccursOnce T1 A B)
    (h : ReplacedAll T1 T2 (A ++ T1 ++ B) o) : o = A ++ T2 ++ B := by
  rcases replacedAll_inv _ _ _ _ h with ⟨hn, _⟩ | ⟨A', B', out', hs, _, hr', ho⟩
  · exact absurd (infix_mid T1 A B) hn
  · have hA : A' = A := honce A' B' hs.symm
    subst hA
    have hB : B = B' := by
      have hs' : A' ++ (T1 ++ B) = A' ++ (T1 ++ B') := by simpa [List.append_assoc] using hs
      exact List.append_cancel_left (List.append_cancel_left hs')
    subst hB
    have hnB : ¬ T1 <:+: B := by
      rintro ⟨X, Y, hXY⟩
      have : A' ++ T1 ++ X = A' := honce (A' ++ T1 ++ X) Y (by rw [← hXY]; simp [List.append_assoc])
      have hlen := congrArg List.length this
      simp only [List.length_append] at hlen
      have : 0 < T1.length := List.length_pos.2 hT
      omega
    rw [ho, replacedAll_of_absent _ _ _ _ hnB hr']

/-! ## Runes and the empty separator -/

theorem decodeRuneSize_le (p : GoString) : decodeRuneSize p ≤ p.length := by
  rcases p with _ | ⟨p0, _ | ⟨b1, _ | ⟨b2, _ | ⟨b3, rest⟩⟩⟩⟩
  · simp [decodeRuneSize]
  all_goals
    simp only [decodeRuneSize, List.length_cons, List.length_nil]
    split_ifs <;> omega

theorem decodeRuneSize_pos (p : GoString) (hp : p ≠ []) : 1 ≤ decodeRuneSize p := by
  rcases p with _ | ⟨p0, _ | ⟨b1, _ | ⟨b2, _ | ⟨b3, rest⟩⟩⟩⟩
  · exact absurd rfl hp
  all_goals
    simp only [decodeRuneSize, List.length_cons, List.length_nil]
    split_ifs <;> omega

theorem runeCountLoop_acc (fuel : Nat) (p : GoString) (n : Nat) :
    runeCountLoop fuel p n = n + runeCountLoop fuel p 0 := by
  induction fuel generalizing p n with
  | zero => simp [runeCountLoop]
  | succ fuel ih =>
    unfold runeCountLoop
    by_cases hp : p.isEmpty = true
    · simp [hp]
    · simp only [hp, Bool.false_eq_true, if_false]
      rw [ih _ (n + 1), ih _ (0 + 1)]
      omega

theorem runeCountLoop_fuel (f1 f2 : Nat) (p : GoString) (n : Nat)
    (h1 : p.length ≤ f1) (h2 : p.length ≤ f2) :
    runeCountLoop f1 p n = runeCountLoop f2 p n := by
  induction f1 generalizing f2 p n with
  | zero =>
    have hp : p = [] := List.length_eq_zero.1 (by omega)
    subst hp
    cases f2 <;> simp [runeCountLoop]
  | succ f1 ih =>
    cases f2 with
    | zero =>
      have hp : p = [] := List.length_eq_zero.1 (by omega)
      subst hp
      simp [runeCountLoop]
    | succ f2 =>
      unfold runeCountLoop
      by_cases hp : p.isEmpty = true
      · simp [hp]
      · simp only [hp, Bool.false_eq_true, if_false]
        have hne : p ≠ [] := by simpa using hp
        have hpos := decodeRuneSize_pos p hne
        have hlen : 0 < p.length := List.length_pos.2 hne
        apply ih <;> simp only [List.length_drop] <;> omega

theorem runeCount_nil : RuneCount [] = 0 := rfl

theorem runeCount_unfold (p : GoString) (hp : p ≠ []) :
    RuneCount p = RuneCount (p.drop (decodeRuneSize p)) + 1 := by
  have hlen : 0 < p.length := List.length_pos.2 hp
  have hpos := decodeRuneSize_pos p hp
  unfold RuneCount
  obtain ⟨m, hm⟩ : ∃ m, p.length = m + 1 := ⟨p.length - 1, by omega⟩
  rw [hm, runeCountLoop]
  have hne : p.isEmpty = false := by simpa using hp
  simp only [hne, Bool.false_eq_true, if_false]
  rw [runeCountLoop_acc, Nat.zero_add, Nat.add_comm]
  congr 1
  apply runeCountLoop_fuel
  · simp only [List.length_drop]; omega
  · exact Nat.le_refl _

theorem replaceLoop_empty (s : GoString) (k : Nat) :
    ∀ (i start : Nat) (t : GoString), start ≤ s.length →
      k = RuneCount (s.drop start) + (if i = 0 then 1 else 0) →
      replaceLoop s [] [] k i start t = some (t ++ s.drop start) := by
  induction k with
  | zero =>
    intro i start t hstart _
    simp [replaceLoop, hstart]
  | succ k ih =>
    intro i start t hstart hk
    unfold replaceLoop
    simp only [hstart, if_true, List.length_nil, Nat.add_zero, List.append_nil]
    by_cases hi : i = 0
    · subst hi
      simp only [gt_iff_lt, Nat.lt_irrefl, if_false, hstart, if_true, Nat.zero_add]
      rw [ih 1 start _ hstart (by simp at hk; simp [hk])]
      simp
    · have hi' : i > 0 := Nat.pos_of_ne_zero hi
      simp only [hi, if_false, Nat.add_zero] at hk
      have hne : s.drop start ≠ [] := by
        intro h
        rw [h, runeCount_nil] at hk
        omega
      have hle := decodeRuneSize_le (s.drop start)
      simp only [List.length_drop] at hle
      have hj : start + decodeRuneSize (s.drop start) ≤ s.length := by omega
      simp only [hi', if_true, hj]
      rw [runeCount_unfold _ hne, List.drop_drop] at hk
      rw [ih (i + 1) _ _ hj (by simp; omega)]
      rw [List.drop_take, Nat.add_sub_cancel_left, List.append_assoc]
      congr 2
      rw [← List.drop_drop, List.take_append_drop]

theorem replaceAll_self (s T : GoString) : ReplaceAll s T T = some s := by
  by_cases hT : T = []
  · subst hT
    unfold ReplaceAll Replace
    simp only [ne_eq, Int.reduceNeg, Int.neg_eq_zero, one_ne_zero, not_false_eq_true, if_true,
      Left.neg_neg_iff, zero_lt_one, true_or]
    have hc : Count s [] = RuneCount s + 1 := by simp [Count]
    rw [hc]
    simp only [Nat.add_one_ne_zero, if_false]
    rw [replaceLoop_empty s _ 0 0 [] (Nat.zero_le _) (by simp)]
    simp
  · obtain ⟨out, h1, h2⟩ := replaceAll_spec s T T hT
    rw [h1, replacedAll_self _ _ _ h2]

theorem replaceAll_of_absent (s old new : GoString) (hn : ¬ old <:+: s) :
    ReplaceAll s old new = some s := by
  have hold : old ≠ [] := by
    rintro rfl
    exact hn ⟨[], s, by simp⟩
  obtain ⟨out, h1, h2⟩ := replaceAll_spec s old new hold
  rw [h1, replacedAll_of_absent _ _ _ _ hn h2]

/-! ## The functions of the program, step by step -/

theorem updateSettings_run (cfg : Configuration) (T1 T2 : GoString) (w : World) (f : File)
    (out : GoString) (hf : w.fs cfg.settings = some f) (hr : f.readable = true)
    (hw : f.writable = true) (hrep : ReplaceAll f.data T1 T2 = some out) :
    updateSettings cfg T1 T2 w =
      (.returned (),
        { fs := fun p => if p = cfg.settings then some { f with data := out } else w.fs p
          trace := w.trace ++ [.readFile cfg.settings, .writeFile cfg.settings out,
            .log .Info (str "✅ Updated token!")] }) := by
  simp [updateSettings, ioutil.ReadFile, ioutil.WriteFile, World.emit, log.Info, hf, hr, hw, hrep]

theorem fs_write_back (w : World) (path : GoString) (f : File) (hf : w.fs path = some f) :
    (fun p => if p = path then some { f with data := f.data } else w.fs p) = w.fs := by
  funext p
  by_cases hp : p = path
  · cases f
    simp_all
  · simp [hp]

theorem updateSettings_fs_same (cfg : Configuration) (T : GoString) (w : World) :
    (updateSettings cfg T T w).2.fs = w.fs := by
  unfold updateSettings ioutil.ReadFile
  simp only [World.emit]
  cases hf : w.fs cfg.settings with
  | none => simp [log.Fatal, World.emit]
  | some f =>
    simp only
    by_cases hr : f.readable = true
    · simp only [hr, if_true, replaceAll_self]
      unfold ioutil.WriteFile
      simp only [World.emit, hf]
      by_cases hw : f.writable = true
      · simp only [hw, if_true, log.Info, World.emit]
        funext p
        by_cases hp : p = cfg.settings
        · cases f
          simp_all
        · simp [hp]
      · simp [hw, log.Fatal, World.emit]
    · simp [hr, log.Fatal, World.emit]

theorem osOpen_fst (path : GoString) (w w' : World) (h : w'.fs = w.fs) :
    (os.Open path w').1 = (os.Open path w).1 := by
  unfold os.Open
  simp only [World.emit, h]
  cases w.fs path with
  | none => rfl
  | some f => by_cases hr : f.readable = true <;> simp [hr]

theorem serverLoop_found (cfg : Configuration) (before : List Node) (node : Node)
    (after : List Node) (password : GoString) (w : World)
    (hbefore : ∀ n ∈ before, ∃ e, n.SelectElement (str "id") = some e ∧ e.InnerText ≠ cfg.server)
    (hid : ∃ e, node.SelectElement (str "id") = some e ∧ e.InnerText = cfg.server)
    (hpw : ∃ p, node.SelectElement (str "password") = some p ∧ p.InnerText = password) :
    serverLoop cfg (before ++ node :: after) w =
      (.returned (some password),
        log.Debug (str "CodeArtifact Maven Password: " ++ password) w) := by
  induction before with
  | nil =>
    obtain ⟨e, he, hee⟩ := hid
    obtain ⟨p, hp, hpp⟩ := hpw
    simp [serverLoop, he, hee, hp, hpp]
  | cons n rest ih =>
    obtain ⟨e, he, hee⟩ := hbefore n (List.mem_cons_self _ _)
    have := ih (fun m hm => hbefore m (List.mem_cons_of_mem _ hm))
    simp [serverLoop, he, hee, this]

theorem serverLoop_absent (cfg : Configuration) (nodes : List Node) (w : World)
    (h : ∀ n ∈ nodes, ∃ e, n.SelectElement (str "id") = some e ∧ e.InnerText ≠ cfg.server) :
    serverLoop cfg nodes w = (.returned none, w) := by
  induction nodes with
  | nil => rfl
  | cons n rest ih =>
    obtain ⟨e, he, hee⟩ := h n (List.mem_cons_self _ _)
    have := ih (fun m hm => h m (List.mem_cons_of_mem _ hm))
    simp [serverLoop, he, hee, this]

theorem serverLoop_fs (cfg : Configuration) (nodes : List Node) (w : World) :
    (serverLoop cfg nodes w).2.fs = w.fs := by
  induction nodes with
  | nil => rfl
  | cons n rest ih =>
    unfold serverLoop
    cases n.SelectElement (str "id") with
    | none => rfl
    | some e =>
      simp only
      by_cases he : e.InnerText = cfg.server
      · simp only [he, if_true]
        cases n.SelectElement (str "password") with
        | none => rfl
        | some p => rfl
      · simp only [he, if_false, ih]

theorem reader_found (env : Env) (cfg : Configuration) (w : World) (f : File) (doc : Node)
    (password : GoString) (hf : w.fs cfg.settings = some f) (hr : f.readable = true)
    (hparse : env.Parse f.data = .ok doc) (hdoc : FirstServer doc cfg.server password) :
    getCodeArtifactTokenFromSettings env cfg w =
      (.returned (password, none),
        { fs := w.fs
          trace := w.trace ++ [.osOpen cfg.settings,
            .log .Debug (str "CodeArtifact Maven Password: " ++ password)] }) := by
  obtain ⟨before, node, after, hfind, hbefore, hid, hpw⟩ := hdoc
  simp [getCodeArtifactTokenFromSettings, os.Open, World.emit, hf, hr, hparse, hfind,
    serverLoop_found cfg before node after password _ hbefore hid hpw, log.Debug]

theorem reader_not_found (env : Env) (cfg : Configuration) (w : World) (f : File) (doc : Node)
    (hf : w.fs cfg.settings = some f) (hr : f.readable = true)
    (hparse : env.Parse f.data = .ok doc) (hdoc : NoServer doc cfg.server) :
    getCodeArtifactTokenFromSettings env cfg w =
      (.returned ([], some (errors.New (str "Could not find server " ++ cfg.server))),
        { fs := w.fs
          trace := w.trace ++ [.osOpen cfg.settings, .fileClose cfg.settings] }) := by
  simp [getCodeArtifactTokenFromSettings, os.Open, World.emit, hf, hr, hparse,
    serverLoop_absent cfg _ _ hdoc]

theorem reader_open_error (env : Env) (cfg : Configuration) (w : World) (err : GoError)
    (hopen : (os.Open cfg.settings w).1 = .error err) :
    getCodeArtifactTokenFromSettings env cfg w =
      (.returned ([], some err), { fs := w.fs, trace := w.trace ++ [.osOpen cfg.settings] }) := by
  unfold getCodeArtifactTokenFromSettings
  unfold os.Open at hopen ⊢
  simp only [World.emit] at hopen ⊢
  cases hf : w.fs cfg.settings with
  | none =>
    simp only [hf] at hopen ⊢
    injection hopen with h
    subst h
    rfl
  | some f =>
    simp only [hf] at hopen ⊢
    by_cases hr : f.readable = true
    · simp [hr] at hopen
    · simp only [hr, Bool.false_eq_true, if_false] at hopen ⊢
      injection hopen with h
      subst h
      rfl

theorem reader_fs (env : Env) (cfg : Configuration) (w : World) :
    (getCodeArtifactTokenFromSettings env cfg w).2.fs = w.fs := by
  unfold getCodeArtifactTokenFromSettings os.Open
  simp only [World.emit]
  cases w.fs cfg.settings with
  | none => rfl
  | some f =>
    simp only
    by_cases hr : f.readable = true
    · simp only [hr, if_true]
      cases env.Parse f.data with
      | error e => rfl
      | ok doc =>
        simp only
        have hfs := serverLoop_fs cfg (Find doc (str "/settings/servers/server"))
          { fs := w.fs, trace := w.trace ++ [Event.osOpen cfg.settings] }
        rcases hloop : serverLoop cfg (Find doc (str "/settings/servers/server"))
          { fs := w.fs, trace := w.trace ++ [Event.osOpen cfg.settings] } with ⟨o, w1⟩
        rw [hloop] at hfs
        cases o with
        | returned r =>
          cases r with
          | none => exact hfs
          | some pw => exact hfs
        | exited c => exact hfs
        | panicked => exact hfs
    · simp [hr]

theorem getCodeArtifactToken_run (env : Env) (cfg : Configuration) (w : World)
    (token : GoString) (hload : env.LoadDefaultConfig = none)
    (hfetch : (env.GetAuthorizationToken cfg.domain cfg.domainOwner).1 =
      some { AuthorizationToken := some token }) :
    getCodeArtifactToken env cfg w =
      (.returned (token, none),
        { fs := w.fs
          trace := w.trace ++ [.loadDefaultConfig,
            .getAuthorizationToken cfg.domain cfg.domainOwner,
            .log .Debug (str "CodeArtifact Token: " ++ token)] }) := by
  unfold getCodeArtifactToken
  rcases hpair : env.GetAuthorizationToken cfg.domain cfg.domainOwner with ⟨o, e⟩
  rw [hpair] at hfetch
  simp only at hfetch
  subst hfetch
  simp [hload, World.emit, log.Debug, aws.ToString]

theorem fetcher_fs (env : Env) (cfg : Configuration) (w : World) :
    (getCodeArtifactToken env cfg w).2.fs = w.fs := by
  unfold getCodeArtifactToken
  simp only [World.emit]
  cases env.LoadDefaultConfig with
  | some e => rfl
  | none =>
    simp only
    rcases env.GetAuthorizationToken cfg.domain cfg.domainOwner with ⟨o, e⟩
    cases o with
    | none => rfl
    | some out => rfl

theorem logConfiguration_fs (cfg : Configuration) (w : World) :
    (logConfiguration cfg w).fs = w.fs := rfl

theorem manageTokens_success (env : Env) (cfg : Configuration) (w w1 w2 w3 : World)
    (T1 T2 : GoString)
    (h1 : getCodeArtifactTokenFromSettings env cfg (logConfiguration cfg w) =
      (.returned (T1, none), w1)) (hT1 : T1 ≠ [])
    (h2 : getCodeArtifactToken env cfg w1 = (.returned (T2, none), w2)) (hT2 : T2 ≠ [])
    (h3 : updateSettings cfg T1 T2 w2 = (.returned (), w3)) :
    manageTokens env cfg w = (.returned none, w3) := by
  unfold manageTokens
  simp [h1, hT1, h2, hT2, h3]

/-- With no flag set the action prints the help and exits with status 0
before `manageTokens` is called. -/
theorem mainAction_without_flags (env : Env) (cfg : Configuration) (w : World) :
    mainAction env 0 cfg w = (.exited 0, w.emit .showHelp) := rfl

theorem occursOnce_of_positions (T A B : GoString)
    (h : ∀ k, k < (A ++ T ++ B).length + 1 → T <+: (A ++ T ++ B).drop k → k = A.length) :
    OccursOnce T A B := by
  intro A' B' heq
  have hlen : A'.length = A.length := by
    apply h
    · rw [← heq]
      simp only [List.length_append]
      omega
    · rw [← heq, List.append_assoc, List.drop_left]
      exact List.prefix_append _ _
  have heq' : A' ++ (T ++ B') = A ++ (T ++ B) := by simpa [List.append_assoc] using heq
  exact (List.append_inj heq' hlen).1

set_option maxRecDepth 100000 in
theorem firstServer_oneServer (password : GoString) :
    FirstServer (settingsDoc [serverNode (str "codeartifact") password]) (str "codeartifact")
      password :=
  ⟨[], serverNode (str "codeartifact") password, [], by rfl, fun _ hn => (nomatch hn),
    ⟨textElem "id" (str "codeartifact"), by rfl, by rfl⟩,
    ⟨textElem "password" password, by rfl,
      by simp [textElem, Node.InnerText, InnerTextList]⟩⟩

set_option maxRecDepth 100000 in
theorem occursOnce_fileOneServer :
    OccursOnce (str "OLD123")
      (str "<settings><servers>" ++ (str "<server><id>" ++ str "codeartifact" ++
        str "</id><password>"))
      (str "</password></server>" ++ str "</servers></settings>") :=
  occursOnce_of_positions _ _ _ (by decide)

/-! ## The tokenizer -/

theorem isTextByte_ne_lt (c : Byte) (h : isTextByte c = true) : c.val ≠ 60 := by
  intro h60
  simp [isTextByte, h60] at h

theorem isNameByte_ne_gt (c : Byte) (h : isNameByte c = true) : c.val ≠ 62 := by
  intro h62
  simp [isNameByte, isNameStart, h62] at h

theorem isNameStart_ne_slash (c : Byte) (h : isNameStart c = true) : c.val ≠ 47 := by
  intro h47
  simp [isNameStart, h47] at h

theorem isNameStart_ne_gt (c : Byte) (h : isNameStart c = true) : c.val ≠ 62 := by
  intro h62
  simp [isNameStart, h62] at h

theorem isNameStart_isNameByte (c : Byte) (h : isNameStart c = true) : isNameByte c = true := by
  simp [isNameByte, h]

theorem lex_text_nil (acc : GoString) :
    lex (.text acc) [] = if acc.isEmpty then .ok [] else .ok [.text acc] := by
  rw [lex]

theorem lex_text_cons (acc : GoString) (c : Byte) (rest : GoString) :
    lex (.text acc) (c :: rest) =
      if c.val = 60 then
        match lex .tagStart rest with
        | .ok ts => if acc.isEmpty then .ok ts else .ok (.text acc :: ts)
        | .error e => .error e
      else if isTextByte c then lex (.text (acc ++ [c])) rest
      else .error xmlError := by
  rw [lex]

theorem lex_tagStart_cons (c : Byte) (rest : GoString) :
    lex .tagStart (c :: rest) =
      if c.val = 47 then lex (.closeTag []) rest
      else if isNameStart c then lex (.openTag [c]) rest
      else .error xmlError := by
  rw [lex]

theorem lex_openTag_cons (acc : GoString) (c : Byte) (rest : GoString) :
    lex (.openTag acc) (c :: rest) =
      if c.val = 62 then
        match lex (.text []) rest with
        | .ok ts => .ok (.startTag acc :: ts)
        | .error e => .error e
      else if isNameByte c then lex (.openTag (acc ++ [c])) rest
      else .error xmlError := by
  rw [lex]

theorem lex_closeTag_cons (acc : GoString) (c : Byte) (rest : GoString) :
    lex (.closeTag acc) (c :: rest) =
      if c.val = 62 then
        if acc.isEmpty then .error xmlError
        else
          match lex (.text []) rest with
          | .ok ts => .ok (.endTag acc :: ts)
          | .error e => .error e
      else if (if acc.isEmpty then isNameStart c else isNameByte c) then
        lex (.closeTag (acc ++ [c])) rest
      else .error xmlError := by
  rw [lex]

theorem lex_text_run (d : GoString) (hd : ∀ c ∈ d, isTextByte c = true) (acc R : GoString) :
    lex (.text acc) (d ++ R) = lex (.text (acc ++ d)) R := by
  induction d generalizing acc with
  | nil => simp
  | cons c d ih =>
    have hc := hd c (List.mem_cons_self _ _)
    have h60 := isTextByte_ne_lt c hc
    rw [List.cons_append, lex_text_cons, if_neg h60, if_pos hc,
      ih (fun x hx => hd x (List.mem_cons_of_mem _ hx))]
    simp

theorem lex_openTag_run (n : GoString) (hn : ∀ c ∈ n, isNameByte c = true) (acc R : GoString) :
    lex (.openTag acc) (n ++ 62 :: R) =
      match lex (.text []) R with
      | .ok ts => .ok (.startTag (acc ++ n) :: ts)
      | .error e => .error e := by
  induction n generalizing acc with
  | nil =>
    rw [List.nil_append, lex_openTag_cons, if_pos (show ((62 : Byte) : Nat) = 62 from rfl),
      List.append_nil]
  | cons c n ih =>
    have hc := hn c (List.mem_cons_self _ _)
    have h62 := isNameByte_ne_gt c hc
    rw [List.cons_append, lex_openTag_cons, if_neg h62, if_pos hc,
      ih (fun x hx => hn x (List.mem_cons_of_mem _ hx))]
    simp

theorem lex_closeTag_run (n : GoString) (hn : ∀ c ∈ n, isNameByte c = true) (acc R : GoString)
    (hacc : acc ≠ []) :
    lex (.closeTag acc) (n ++ 62 :: R) =
      match lex (.text []) R with
      | .ok ts => .ok (.endTag (acc ++ n) :: ts)
      | .error e => .error e := by
  have hemp : ∀ a : GoString, a ≠ [] → a.isEmpty = false := fun a ha => by simpa using ha
  induction n generalizing acc with
  | nil =>
    rw [List.nil_append, lex_closeTag_cons, if_pos (show ((62 : Byte) : Nat) = 62 from rfl),
      hemp acc hacc, List.append_nil]
    simp
  | cons c n ih =>
    have hc := hn c (List.mem_cons_self _ _)
    have h62 := isNameByte_ne_gt c hc
    rw [List.cons_append, lex_closeTag_cons, if_neg h62, hemp acc hacc]
    simp only [Bool.false_eq_true, if_false, hc, if_true]
    rw [ih (fun x hx => hn x (List.mem_cons_of_mem _ hx)) _ (by simp)]
    simp

theorem validName_cons (c : Byte) (cs : GoString) :
    validName (c :: cs) = true ↔ isNameStart c = true ∧ ∀ x ∈ cs, isNameByte x = true := by
  simp [validName]

theorem lex_startTag (name R : GoString) (hname : validName name = true) :
    lex (.text []) ((Token.startTag name).render ++ R) =
      match lex (.text []) R with
      | .ok ts => .ok (.startTag name :: ts)
      | .error e => .error e := by
  cases name with
  | nil => simp [validName] at hname
  | cons c cs =>
    obtain ⟨hc, hcs⟩ := (validName_cons c cs).1 hname
    have h47 := isNameStart_ne_slash c hc
    have hshape : (Token.startTag (c :: cs)).render ++ R = 60 :: c :: (cs ++ 62 :: R) := by
      simp [Token.render]
    rw [hshape, lex_text_cons, if_pos (show ((60 : Byte) : Nat) = 60 from rfl), lex_tagStart_cons,
      if_neg h47, if_pos hc,
      lex_openTag_run cs hcs [c] R]
    cases lex (.text []) R <;> simp

theorem lex_endTag (name R : GoString) (hname : validName name = true) :
    lex (.text []) ((Token.endTag name).render ++ R) =
      match lex (.text []) R with
      | .ok ts => .ok (.endTag name :: ts)
      | .error e => .error e := by
  cases name with
  | nil => simp [validName] at hname
  | cons c cs =>
    obtain ⟨hc, hcs⟩ := (validName_cons c cs).1 hname
    have h62 := isNameStart_ne_gt c hc
    have hshape : (Token.endTag (c :: cs)).render ++ R = 60 :: 47 :: c :: (cs ++ 62 :: R) := by
      simp [Token.render]
    rw [hshape, lex_text_cons, if_pos (show ((60 : Byte) : Nat) = 60 from rfl), lex_tagStart_cons,
      if_pos (show ((47 : Byte) : Nat) = 47 from rfl), lex_closeTag_cons, if_neg h62]
    simp only [List.isEmpty_nil, if_true, hc, List.nil_append]
    rw [lex_closeTag_run cs hcs [c] R (by simp)]
    cases lex (.text []) R <;> simp

theorem lexValid_cons (t : Token) (ts : List Token) :
    lexValid (t :: ts) = true ↔
      t.valid = true ∧ (t.isText = true → (ts.head?.map Token.isText).getD false = false) ∧
        lexValid ts = true := by
  simp only [lexValid, Bool.and_eq_true, Bool.not_eq_true', Bool.and_eq_false_iff]
  constructor
  · rintro ⟨⟨h1, h2⟩, h3⟩
    refine ⟨h1, ?_, h3⟩
    intro ht
    rcases h2 with h | h
    · rw [ht] at h
      cases h
    · exact h
  · rintro ⟨h1, h2, h3⟩
    refine ⟨⟨h1, ?_⟩, h3⟩
    cases ht : t.isText with
    | false => exact Or.inl rfl
    | true => exact Or.inr (h2 ht)

theorem render_tag (tok : Token) (h : tok.isText = false) : ∃ Y, tok.render = 60 :: Y := by
  cases tok with
  | startTag name => exact ⟨name ++ [62], by simp [Token.render]⟩
  | endTag name => exact ⟨47 :: (name ++ [62]), by simp [Token.render]⟩
  | text d => simp [Token.isText] at h

theorem lex_text_lt (acc X : GoString) (ts : List Token)
    (h : lex (.text []) (60 :: X) = .ok ts) :
    lex (.text acc) (60 :: X) = .ok (if acc.isEmpty then ts else .text acc :: ts) := by
  rw [lex_text_cons, if_pos (show ((60 : Byte) : Nat) = 60 from rfl)] at h ⊢
  cases hX : lex .tagStart X with
  | error e => simp [hX] at h
  | ok ts0 =>
    simp only [hX, List.isEmpty_nil, if_true, Except.ok.injEq] at h
    subst h
    cases acc <;> simp

theorem lex_complete (ts : List Token) (h : lexValid ts = true) :
    lex (.text []) (renderTokens ts) = .ok ts := by
  induction ts with
  | nil => rfl
  | cons t ts ih =>
    obtain ⟨hvalid, hadj, hrest⟩ := (lexValid_cons t ts).1 h
    have ih' := ih hrest
    cases t with
    | startTag name =>
      rw [renderTokens, lex_startTag name _ hvalid, ih']
    | endTag name =>
      rw [renderTokens, lex_endTag name _ hvalid, ih']
    | text d =>
      simp only [Token.valid, Bool.and_eq_true, Bool.not_eq_true', List.all_eq_true] at hvalid
      obtain ⟨hne, hd⟩ := hvalid
      have hadj' := hadj rfl
      rw [renderTokens]
      simp only [Token.render]
      rw [lex_text_run d hd [] _, List.nil_append]
      cases ts with
      | nil =>
        rw [renderTokens, lex_text_nil, hne]
        simp
      | cons u us =>
        have hu : u.isText = false := by simpa using hadj'
        obtain ⟨Y, hY⟩ := render_tag u hu
        have hshape : renderTokens (u :: us) = 60 :: (Y ++ renderTokens us) := by
          simp [renderTokens, hY]
        rw [hshape] at ih' ⊢
        rw [lex_text_lt d _ _ ih', hne]
        simp

theorem lex_sound_aux (F : GoString) :
    (∀ acc ts, (∀ c ∈ acc, isTextByte c = true) → lex (.text acc) F = .ok ts →
      ∃ d rest, (∀ c ∈ d, isTextByte c = true) ∧ F = d ++ renderTokens rest ∧
        lexValid rest = true ∧ (rest.head?.map Token.isText).getD false = false ∧
        ts = if (acc ++ d).isEmpty then rest else .text (acc ++ d) :: rest) ∧
    (∀ ts, lex .tagStart F = .ok ts →
      ∃ tok rest, ts = tok :: rest ∧ tok.isText = false ∧
        tok.render ++ renderTokens rest = 60 :: F ∧ lexValid (tok :: rest) = true) ∧
    (∀ acc ts, lex (.openTag acc) F = .ok ts →
      ∃ n rest, (∀ c ∈ n, isNameByte c = true) ∧ F = n ++ 62 :: renderTokens rest ∧
        lexValid rest = true ∧ ts = .startTag (acc ++ n) :: rest) ∧
    (∀ acc ts, lex (.closeTag acc) F = .ok ts →
      ∃ n rest, (acc = [] → ∃ c n', n = c :: n' ∧ isNameStart c = true) ∧
        (∀ c ∈ n, isNameByte c = true) ∧ F = n ++ 62 :: renderTokens rest ∧
        lexValid rest = true ∧ ts = .endTag (acc ++ n) :: rest) := by
  induction F with
  | nil =>
    refine ⟨?_, ?_, ?_, ?_⟩
    · intro acc ts _ h
      rw [lex_text_nil] at h
      refine ⟨[], [], by simp, by simp [renderTokens], rfl, rfl, ?_⟩
      cases acc with
      | nil => simpa using h.symm
      | cons a as => simpa using h.symm
    · intro ts h
      simp [lex] at h
    · intro acc ts h
      simp [lex] at h
    · intro acc ts h
      simp [lex] at h
  | cons c F ih =>
    obtain ⟨ihText, ihTag, ihOpen, ihClose⟩ := ih
    -- a successful run from the text state with an empty accumulator
    have hplain : ∀ ts, lex (.text []) F = .ok ts →
        lexValid ts = true ∧ renderTokens ts = F := by
      intro ts h
      obtain ⟨d, rest, hd, hF, hrest, hhead, hts⟩ := ihText [] ts (by simp) h
      simp only [List.nil_append] at hts
      cases d with
      | nil =>
        simp only [List.isEmpty_nil, if_true] at hts
        subst hts
        exact ⟨hrest, by simpa using hF.symm⟩
      | cons x xs =>
        simp only [List.isEmpty_cons, Bool.false_eq_true, if_false] at hts
        subst hts
        refine ⟨?_, by simpa [renderTokens, Token.render] using hF.symm⟩
        rw [lexValid_cons]
        refine ⟨?_, fun _ => hhead, hrest⟩
        simp only [Token.valid, Bool.and_eq_true, Bool.not_eq_true', List.all_eq_true]
        exact ⟨by simp, hd⟩
    refine ⟨?_, ?_, ?_, ?_⟩
    · intro acc ts hacc h
      rw [lex_text_cons] at h
      by_cases h60 : c.val = 60
      · rw [if_pos h60] at h
        cases hX : lex .tagStart F with
        | error e => simp [hX] at h
        | ok ts0 =>
          simp only [hX] at h
          obtain ⟨tok, rest0, hts0, htok, hrender, hvalid⟩ := ihTag ts0 hX
          have hc : c = 60 := Fin.ext h60
          refine ⟨[], ts0, by simp, ?_, ?_, ?_, ?_⟩
          · rw [hts0, renderTokens, hrender, hc]
            rfl
          · rw [hts0]; exact hvalid
          · rw [hts0]; simp [htok]
          · cases acc with
            | nil => simpa using h.symm
            | cons a as => simpa using h.symm
      · rw [if_neg h60] at h
        by_cases hc : isTextByte c = true
        · rw [if_pos hc] at h
          obtain ⟨d, rest, hd, hF, hrest, hhead, hts⟩ := ihText (acc ++ [c]) ts (by
            intro x hx
            rcases List.mem_append.1 hx with hx | hx
            · exact hacc x hx
            · simp only [List.mem_singleton] at hx
              rw [hx]; exact hc) h
          refine ⟨c :: d, rest, ?_, by simp [hF], hrest, hhead, ?_⟩
          · intro x hx
            rcases List.mem_cons.1 hx with hx | hx
            · rw [hx]; exact hc
            · exact hd x hx
          · simpa [List.append_assoc] using hts
        · rw [if_neg hc] at h
          cases h
    · intro ts h
      rw [lex_tagStart_cons] at h
      by_cases h47 : c.val = 47
      · rw [if_pos h47] at h
        obtain ⟨n, rest, hstart, hn, hF, hrest, hts⟩ := ihClose [] ts h
        obtain ⟨c0, n', hn0, hc0⟩ := hstart rfl
        have hc : c = 47 := Fin.ext h47
        refine ⟨.endTag n, rest, by simpa using hts, rfl, ?_, ?_⟩
        · simp [Token.render, hF, hc]
        · rw [lexValid_cons]
          refine ⟨?_, by simp [Token.isText], hrest⟩
          subst hn0
          simp only [Token.valid, validName, Bool.and_eq_true, List.all_eq_true]
          exact ⟨hc0, fun x hx => hn x (List.mem_cons_of_mem _ hx)⟩
      · rw [if_neg h47] at h
        by_cases hc : isNameStart c = true
        · rw [if_pos hc] at h
          obtain ⟨n, rest, hn, hF, hrest, hts⟩ := ihOpen [c] ts h
          refine ⟨.startTag (c :: n), rest, by simpa using hts, rfl, ?_, ?_⟩
          · simp [Token.render, hF]
          · rw [lexValid_cons]
            refine ⟨?_, by simp [Token.isText], hrest⟩
            simp only [Token.valid, validName, Bool.and_eq_true, List.all_eq_true]
            exact ⟨hc, hn⟩
        · rw [if_neg hc] at h
          cases h
    · intro acc ts h
      rw [lex_openTag_cons] at h
      by_cases h62 : c.val = 62
      · rw [if_pos h62] at h
        cases hX : lex (.text []) F with
        | error e => simp [hX] at h
        | ok ts0 =>
          simp only [hX, Except.ok.injEq] at h
          obtain ⟨hv, hr⟩ := hplain ts0 hX
          have hc : c = 62 := Fin.ext h62
          exact ⟨[], ts0, by simp, by simp [hr, hc], hv, by simp [← h]⟩
      · rw [if_neg h62] at h
        by_cases hc : isNameByte c = true
        · rw [if_pos hc] at h
          obtain ⟨n, rest, hn, hF, hrest, hts⟩ := ihOpen (acc ++ [c]) ts h
          refine ⟨c :: n, rest, ?_, by simp [hF], hrest, by simpa [List.append_assoc] using hts⟩
          intro x hx
          rcases List.mem_cons.1 hx with hx | hx
          · rw [hx]; exact hc
          · exact hn x hx
        · rw [if_neg hc] at h
          cases h
    · intro acc ts h
      rw [lex_closeTag_cons] at h
      by_cases h62 : c.val = 62
      · rw [if_pos h62] at h
        cases acc with
        | nil => simp at h
        | cons a as =>
          simp only [List.isEmpty_cons, Bool.false_eq_true, if_false] at h
          cases hX : lex (.text []) F with
          | error e => simp [hX] at h
          | ok ts0 =>
            simp only [hX, Except.ok.injEq] at h
            obtain ⟨hv, hr⟩ := hplain ts0 hX
            have hc : c = 62 := Fin.ext h62
            refine ⟨[], ts0, ?_, by simp, by simp [hr, hc], hv, by simp [← h]⟩
            intro hacc
            cases hacc
      · rw [if_neg h62] at h
        by_cases hcond : (if acc.isEmpty = true then isNameStart c else isNameByte c) = true
        · rw [if_pos hcond] at h
          obtain ⟨n, rest, _, hn, hF, hrest, hts⟩ := ihClose (acc ++ [c]) ts h
          have hcb : isNameByte c = true := by
            cases acc with
            | nil => exact isNameStart_isNameByte c (by simpa using hcond)
            | cons a as => simpa using hcond
          refine ⟨c :: n, rest, ?_, ?_, by simp [hF], hrest,
            by simpa [List.append_assoc] using hts⟩
          · intro hacc
            subst hacc
            simp only [List.isEmpty_nil, if_true] at hcond
            exact ⟨c, n, rfl, hcond⟩
          · intro x hx
            rcases List.mem_cons.1 hx with hx | hx
            · rw [hx]; exact hcb
            · exact hn x hx
        · rw [if_neg hcond] at h
          cases h

theorem lex_sound (F : GoString) (ts : List Token) (h : lex (.text []) F = .ok ts) :
    lexValid ts = true ∧ renderTokens ts = F := by
  obtain ⟨d, rest, hd, hF, hrest, hhead, hts⟩ := (lex_sound_aux F).1 [] ts (by simp) h
  simp only [List.nil_append] at hts
  cases d with
  | nil =>
    simp only [List.isEmpty_nil, if_true] at hts
    subst hts
    exact ⟨hrest, by simpa using hF.symm⟩
  | cons x xs =>
    simp only [List.isEmpty_cons, Bool.false_eq_true, if_false] at hts
    subst hts
    refine ⟨?_, by simpa [renderTokens, Token.render] using hF.symm⟩
    rw [lexValid_cons]
    refine ⟨?_, fun _ => hhead, hrest⟩
    simp only [Token.valid, Bool.and_eq_true, Bool.not_eq_true', List.all_eq_true]
    exact ⟨by simp, hd⟩

/-! ## Text substitution and text counting in trees -/

theorem mapTextList_eq_map (g : GoString → GoString) (cs : List Node) :
    mapTextList g cs = cs.map (Node.mapText g) := by
  induction cs with
  | nil => rfl
  | cons n ns ih => simp [mapTextList, ih]

theorem countTextList_append (T : GoString) (xs ys : List Node) :
    countTextList T (xs ++ ys) = countTextList T xs + countTextList T ys := by
  induction xs with
  | nil => simp [countTextList]
  | cons n ns ih => simp [countTextList, ih, Nat.add_assoc]

theorem countText_textNode (T d : GoString) :
    (Node.mk .TextNode d []).countText T = if d = T then 1 else 0 := by
  simp [Node.countText, countTextList]

theorem countText_element (T name : GoString) (cs : List Node) :
    (Node.mk .ElementNode name cs).countText T = countTextList T cs := by
  simp [Node.countText]

theorem countTextList_children_le (T : GoString) (n : Node) :
    countTextList T n.children ≤ n.countText T := by
  cases n with
  | mk t d cs => simp [Node.children, Node.countText]

theorem countText_le_of_mem (T : GoString) (n : Node) (cs : List Node) (h : n ∈ cs) :
    n.countText T ≤ countTextList T cs := by
  induction cs with
  | nil => cases h
  | cons c cs ih =>
    rcases List.mem_cons.1 h with h | h
    · subst h
      simp [countTextList]
    · have := ih h
      simp only [countTextList]
      omega

theorem countText_two_members (T : GoString) (a b : Node) (cs : List Node) (ha : a ∈ cs)
    (hb : b ∈ cs) (hab : a ≠ b) : a.countText T + b.countText T ≤ countTextList T cs := by
  induction cs with
  | nil => cases ha
  | cons c cs ih =>
    simp only [countTextList]
    rcases List.mem_cons.1 ha with ha | ha
    · rcases List.mem_cons.1 hb with hb | hb
      · exact absurd (ha.trans hb.symm) hab
      · have := countText_le_of_mem T b cs hb
        subst ha
        omega
    · rcases List.mem_cons.1 hb with hb | hb
      · have := countText_le_of_mem T a cs ha
        subst hb
        omega
      · have := ih ha hb
        omega

theorem countTextList_filter_le (T : GoString) (p : Node → Bool) (cs : List Node) :
    countTextList T (cs.filter p) ≤ countTextList T cs := by
  induction cs with
  | nil => simp
  | cons c cs ih =>
    by_cases hp : p c = true
    · simp only [List.filter_cons_of_pos hp, countTextList]
      omega
    · simp only [List.filter_cons_of_neg hp, countTextList]
      omega

theorem countTextList_childElements_le (T name : GoString) (nodes : List Node) :
    countTextList T (nodes.flatMap (fun n => n.childElements name)) ≤ countTextList T nodes := by
  induction nodes with
  | nil => simp
  | cons n ns ih =>
    simp only [List.flatMap_cons, countTextList_append, countTextList]
    have h1 : countTextList T (n.childElements name) ≤ countTextList T n.children :=
      countTextList_filter_le T _ n.children
    have h2 := countTextList_children_le T n
    omega

theorem countTextList_steps_le (T : GoString) (steps : List GoString) (nodes : List Node) :
    countTextList T
        (steps.foldl (fun nodes name => nodes.flatMap (fun n => n.childElements name)) nodes) ≤
      countTextList T nodes := by
  induction steps generalizing nodes with
  | nil => simp
  | cons name steps ih =>
    simp only [List.foldl_cons]
    exact Nat.le_trans (ih _) (countTextList_childElements_le T name nodes)

theorem countTextList_Find_le (T : GoString) (doc : Node) (expr : GoString) :
    countTextList T (Find doc expr) ≤ doc.countText T := by
  have := countTextList_steps_le T (pathSteps expr) [doc]
  simpa [Find, countTextList] using this

mutual
theorem mapText_of_count_zero (T1 T2 : GoString) :
    ∀ n : Node, n.countText T1 = 0 → n.mapText (swapText T1 T2) = n
  | .mk t d cs, h => by
    simp only [Node.countText] at h
    have hcs := mapTextList_of_count_zero T1 T2 cs (by omega)
    have hd : (if t = .TextNode then swapText T1 T2 d else d) = d := by
      by_cases ht : t = .TextNode
      · by_cases hdT : d = T1
        · simp [ht, hdT] at h
        · simp [ht, swapText, hdT]
      · simp [ht]
    simp only [Node.mapText, hcs, hd]
theorem mapTextList_of_count_zero (T1 T2 : GoString) :
    ∀ ns : List Node, countTextList T1 ns = 0 → mapTextList (swapText T1 T2) ns = ns
  | [], _ => rfl
  | n :: ns, h => by
    simp only [countTextList] at h
    simp only [mapTextList, mapText_of_count_zero T1 T2 n (by omega),
      mapTextList_of_count_zero T1 T2 ns (by omega)]
end

theorem children_mapText (g : GoString → GoString) (n : Node) :
    (n.mapText g).children = n.children.map (Node.mapText g) := by
  cases n with
  | mk t d cs => simp [Node.mapText, Node.children, mapTextList_eq_map]

theorem type_mapText (g : GoString → GoString) (n : Node) : (n.mapText g).type = n.type := by
  cases n with
  | mk t d cs => simp [Node.mapText, Node.type]

theorem data_mapText (g : GoString → GoString) (n : Node) (h : n.type = .ElementNode) :
    (n.mapText g).Data = n.Data := by
  cases n with
  | mk t d cs =>
    simp only [Node.type] at h
    subst h
    simp [Node.mapText, Node.Data]

theorem childElements_mapText (g : GoString → GoString) (n : Node) (name : GoString) :
    (n.mapText g).childElements name = (n.childElements name).map (Node.mapText g) := by
  simp only [Node.childElements, children_mapText, List.filter_map]
  congr 1
  apply List.filter_congr
  intro c _
  simp only [Function.comp, type_mapText]
  by_cases ht : c.type = .ElementNode
  · simp [ht, data_mapText g c ht]
  · simp [ht]

theorem selectElement_mapText (g : GoString → GoString) (n : Node) (name : GoString) :
    (n.mapText g).SelectElement name = (n.SelectElement name).map (Node.mapText g) := by
  simp [Node.SelectElement, childElements_mapText, List.head?_map]

theorem steps_mapText (g : GoString → GoString) (steps : List GoString) (nodes : List Node) :
    steps.foldl (fun nodes name => nodes.flatMap (fun n => n.childElements name))
        (nodes.map (Node.mapText g)) =
      (steps.foldl (fun nodes name => nodes.flatMap (fun n => n.childElements name)) nodes).map
        (Node.mapText g) := by
  induction steps generalizing nodes with
  | nil => simp
  | cons name steps ih =>
    simp only [List.foldl_cons]
    rw [← ih]
    congr 1
    simp only [List.flatMap_map, List.map_flatMap, childElements_mapText]

theorem find_mapText (g : GoString → GoString) (doc : Node) (expr : GoString) :
    Find (doc.mapText g) expr = (Find doc expr).map (Node.mapText g) := by
  have := steps_mapText g (pathSteps expr) [doc]
  simpa [Find] using this

theorem selectElement_some (n e : Node) (name : GoString) (h : n.SelectElement name = some e) :
    e ∈ n.children ∧ e.type = .ElementNode ∧ e.Data = name := by
  have hmem : e ∈ n.childElements name := List.mem_of_mem_head? h
  simp only [Node.childElements, List.mem_filter, Bool.and_eq_true, decide_eq_true_eq] at hmem
  exact ⟨hmem.1, hmem.2.1, hmem.2.2⟩

/-! ## The tree builder -/

theorem build_mapText (g : GoString → GoString) (ts : List Token) :
    ∀ (stack : List (GoString × List Node)) (top : Option Node) (doc : Node),
      build ts stack top = .ok doc →
      build (ts.map (Token.mapText g)) (stack.map (fun p => (p.1, p.2.map (Node.mapText g))))
        (top.map (Node.mapText g)) = .ok (doc.mapText g) := by
  induction ts with
  | nil =>
    intro stack top doc h
    cases stack with
    | nil =>
      cases top with
      | none => simp [build] at h
      | some root =>
        simp only [build, Except.ok.injEq] at h
        subst h
        simp [build, Node.mapText, mapTextList]
    | cons p ps => simp [build] at h
  | cons t ts ih =>
    intro stack top doc h
    cases t with
    | startTag name =>
      simp only [build] at h
      by_cases hc : (stack.isEmpty && top.isSome) = true
      · simp [hc] at h
      · simp only [hc, Bool.false_eq_true, if_false] at h
        have hc' : ((stack.map (fun p => (p.1, p.2.map (Node.mapText g)))).isEmpty &&
            (top.map (Node.mapText g)).isSome) = false := by
          cases stack <;> cases top <;> simp_all
        have := ih _ _ _ h
        simp only [List.map_cons, Token.mapText, build, hc', Bool.false_eq_true, if_false]
        simpa using this
    | text d =>
      cases stack with
      | nil => simp [build] at h
      | cons p ps =>
        obtain ⟨name, cs⟩ := p
        simp only [build] at h
        have := ih _ _ _ h
        simp only [List.map_cons, Token.mapText, build]
        simpa [Node.mapText, mapTextList] using this
    | endTag name =>
      cases stack with
      | nil => simp [build] at h
      | cons p ps =>
        obtain ⟨open_, cs⟩ := p
        simp only [build] at h
        by_cases hn : name = open_
        · simp only [hn, if_true] at h
          subst hn
          cases ps with
          | nil =>
            simp only at h
            have := ih _ _ _ h
            simp only [List.map_cons, Token.mapText, build, List.map_nil, if_true]
            simpa [Node.mapText, mapTextList_eq_map] using this
          | cons q qs =>
            obtain ⟨parent, qcs⟩ := q
            simp only at h
            have := ih _ _ _ h
            simp only [List.map_cons, Token.mapText, build, if_true]
            simpa [Node.mapText, mapTextList_eq_map] using this
        · simp [hn] at h

theorem build_countText (T : GoString) (ts : List Token) :
    ∀ (stack : List (GoString × List Node)) (top : Option Node) (doc : Node),
      (stack ≠ [] → top = none) →
      build ts stack top = .ok doc →
      doc.countText T =
        ts.count (.text T) + (stack.map (fun p => countTextList T p.2)).sum +
          (top.map (Node.countText T)).getD 0 := by
  induction ts with
  | nil =>
    intro stack top doc _ h
    cases stack with
    | nil =>
      cases top with
      | none => simp [build] at h
      | some root =>
        simp only [build, Except.ok.injEq] at h
        subst h
        simp [Node.countText, countTextList]
    | cons p ps => simp [build] at h
  | cons t ts ih =>
    intro stack top doc hinv h
    cases t with
    | startTag name =>
      simp only [build] at h
      by_cases hc : (stack.isEmpty && top.isSome) = true
      · simp [hc] at h
      · simp only [hc, Bool.false_eq_true, if_false] at h
        have htop : top = none := by
          cases stack with
          | nil =>
            cases top with
            | none => rfl
            | some r => simp at hc
          | cons p ps => exact hinv (by simp)
        have := ih _ _ _ (fun _ => htop) h
        rw [this]
        simp [countTextList, List.count_cons]
    | text d =>
      cases stack with
      | nil => simp [build] at h
      | cons p ps =>
        obtain ⟨name, cs⟩ := p
        simp only [build] at h
        have htop : top = none := hinv (by simp)
        have := ih _ _ _ (fun _ => htop) h
        rw [this]
        simp only [List.map_cons, List.sum_cons, countTextList_append, countTextList,
          countText_textNode, List.count_cons, beq_iff_eq, Token.text.injEq]
        omega
    | endTag name =>
      cases stack with
      | nil => simp [build] at h
      | cons p ps =>
        obtain ⟨open_, cs⟩ := p
        simp only [build] at h
        have htop : top = none := hinv (by simp)
        by_cases hn : name = open_
        · simp only [hn, if_true] at h
          subst hn
          cases ps with
          | nil =>
            simp only at h
            have := ih _ _ _ (fun hne => absurd rfl hne) h
            rw [this, htop]
            simp [countText_element, List.count_cons]
          | cons q qs =>
            obtain ⟨parent, qcs⟩ := q
            simp only at h
            have := ih _ _ _ (fun _ => htop) h
            rw [this]
            simp only [List.map_cons, List.sum_cons, countTextList_append, countTextList,
              countText_element, List.count_cons, beq_iff_eq]
            simp
            omega
        · simp [hn] at h

/-! ## The parse of a file whose password text is replaced -/

theorem renderTokens_append (xs ys : List Token) :
    renderTokens (xs ++ ys) = renderTokens xs ++ renderTokens ys := by
  induction xs with
  | nil => rfl
  | cons t ts ih => simp [renderTokens, ih]

theorem map_mapText_of_not_mem (T1 T2 : GoString) (l : List Token)
    (h : Token.text T1 ∉ l) : l.map (Token.mapText (swapText T1 T2)) = l := by
  induction l with
  | nil => rfl
  | cons t ts ih =>
    have ht : t ≠ .text T1 := fun e => h (e ▸ List.mem_cons_self _ _)
    have hts : Token.text T1 ∉ ts := fun e => h (List.mem_cons_of_mem _ e)
    rw [List.map_cons, ih hts]
    cases t with
    | startTag name => rfl
    | endTag name => rfl
    | text d =>
      have hd : d ≠ T1 := fun e => ht (by rw [e])
      simp [Token.mapText, swapText, hd]

theorem head_isText_replace (a b : GoString) (pre post : List Token) :
    ((pre ++ Token.text a :: post).head?.map Token.isText).getD false =
      ((pre ++ Token.text b :: post).head?.map Token.isText).getD false := by
  cases pre with
  | nil => simp [Token.isText]
  | cons t ts => simp

theorem lexValid_replace_text (a b : GoString) (pre post : List Token)
    (h : lexValid (pre ++ .text a :: post) = true) (hb : (Token.text b).valid = true) :
    lexValid (pre ++ .text b :: post) = true := by
  induction pre with
  | nil =>
    simp only [List.nil_append] at h ⊢
    rw [lexValid_cons] at h ⊢
    exact ⟨hb, fun _ => h.2.1 rfl, h.2.2⟩
  | cons t ts ih =>
    simp only [List.cons_append] at h ⊢
    rw [lexValid_cons] at h ⊢
    refine ⟨h.1, ?_, ih h.2.2⟩
    intro ht
    rw [← head_isText_replace a b ts post]
    exact h.2.1 ht

theorem selected_first (doc : Node) (server password : GoString)
    (h : SelectedPlainPassword doc server password) : FirstServer doc server password := by
  obtain ⟨before, node, after, hfind, hbefore, hid, hpw⟩ := h
  exact ⟨before, node, after, hfind, hbefore, hid, _, hpw,
    by simp [Node.InnerText, InnerTextList]⟩

theorem selected_count_pos (doc : Node) (server T1 : GoString)
    (h : SelectedPlainPassword doc server T1) : 1 ≤ doc.countText T1 := by
  obtain ⟨before, node, after, hfind, _, _, hpw⟩ := h
  have hp := (selectElement_some _ _ _ hpw).1
  have h1 : (Node.mk .ElementNode (str "password") [.mk .TextNode T1 []]).countText T1 = 1 := by
    simp [Node.countText, countTextList]
  have h2 := countText_le_of_mem T1 _ _ hp
  have h3 := countTextList_children_le T1 node
  have h4 : node.countText T1 ≤ countTextList T1 (Find doc (str "/settings/servers/server")) :=
    countText_le_of_mem T1 _ _ (by rw [hfind]; simp)
  have h5 := countTextList_Find_le T1 doc (str "/settings/servers/server")
  omega

theorem selected_mapText (doc : Node) (server T1 T2 : GoString)
    (h : SelectedPlainPassword doc server T1) (hcount : doc.countText T1 = 1) :
    SelectedPlainPassword (doc.mapText (swapText T1 T2)) server T2 := by
  obtain ⟨before, node, after, hfind, hbefore, ⟨e, he, hee⟩, hpw⟩ := h
  have hp := selectElement_some _ _ _ hpw
  have hes := selectElement_some _ _ _ he
  have h1 : (Node.mk .ElementNode (str "password") [.mk .TextNode T1 []]).countText T1 = 1 := by
    simp [Node.countText, countTextList]
  have hne : e ≠ Node.mk .ElementNode (str "password") [.mk .TextNode T1 []] := by
    intro heq
    have hd := hes.2.2
    rw [heq] at hd
    simp only [Node.Data] at hd
    exact absurd hd (by decide)
  have h2 := countText_two_members T1 _ _ _ hes.1 hp.1 hne
  have h3 := countTextList_children_le T1 node
  have h5 := countTextList_Find_le T1 doc (str "/settings/servers/server")
  rw [hfind, countTextList_append] at h5
  simp only [countTextList] at h5
  have hezero : e.countText T1 = 0 := by omega
  have hbzero : countTextList T1 before = 0 := by omega
  have hbefore_same : ∀ n ∈ before, n.mapText (swapText T1 T2) = n := by
    intro n hn
    have := countText_le_of_mem T1 n before hn
    exact mapText_of_count_zero T1 T2 n (by omega)
  refine ⟨before.map (Node.mapText (swapText T1 T2)), node.mapText (swapText T1 T2),
    after.map (Node.mapText (swapText T1 T2)), ?_, ?_, ?_, ?_⟩
  · rw [find_mapText, hfind]
    simp
  · intro n hn
    obtain ⟨m, hm, rfl⟩ := List.mem_map.1 hn
    rw [hbefore_same m hm]
    exact hbefore m hm
  · refine ⟨e, ?_, hee⟩
    rw [selectElement_mapText, he]
    simp [mapText_of_count_zero T1 T2 e hezero]
  · rw [selectElement_mapText, hpw]
    simp [Node.mapText, mapTextList, swapText]

theorem parse_after_swap (A B T1 T2 server : GoString) (doc : Node)
    (hparse : parseXml (A ++ T1 ++ B) = .ok doc)
    (hsel : SelectedPlainPassword doc server T1) (hT1 : T1 ≠ [])
    (honce : OccursOnce T1 A B) (hT2 : T2 ≠ []) (hT2text : ∀ c ∈ T2, isTextByte c = true) :
    parseXml (A ++ T2 ++ B) = .ok (doc.mapText (swapText T1 T2)) ∧ doc.countText T1 = 1 := by
  unfold parseXml at hparse
  cases hlex : lex (.text []) (A ++ T1 ++ B) with
  | error e =>
    rw [hlex] at hparse
    cases hparse
  | ok toks =>
    rw [hlex] at hparse
    simp only at hparse
    obtain ⟨hvalid, hrender⟩ := lex_sound _ _ hlex
    have hcount := build_countText T1 toks [] none doc (fun h => absurd rfl h) hparse
    simp only [List.map_nil, List.sum_nil, Nat.add_zero, Option.map_none', Option.getD_none]
      at hcount
    have hpos := selected_count_pos doc server T1 hsel
    have hmem : Token.text T1 ∈ toks := List.count_pos_iff.1 (by omega)
    obtain ⟨pre, post, htoks⟩ := List.append_of_mem hmem
    have hT1len : 0 < T1.length := List.length_pos.2 hT1
    have hF : renderTokens pre ++ T1 ++ renderTokens post = A ++ T1 ++ B := by
      rw [← hrender, htoks, renderTokens_append]
      simp [renderTokens, Token.render]
    have hA : renderTokens pre = A := honce _ _ hF
    have hB : renderTokens post = B := by
      rw [hA] at hF
      have hF' : A ++ (T1 ++ renderTokens post) = A ++ (T1 ++ B) := by
        simpa [List.append_assoc] using hF
      exact List.append_cancel_left (List.append_cancel_left hF')
    have hpre : Token.text T1 ∉ pre := by
      intro hin
      obtain ⟨p1, p2, hp⟩ := List.append_of_mem hin
      have hF2 : renderTokens p1 ++ T1 ++ (renderTokens p2 ++ T1 ++ renderTokens post) =
          A ++ T1 ++ B := by
        rw [← hF, hp, renderTokens_append]
        simp [renderTokens, Token.render]
      have h1 := honce _ _ hF2
      have h2 : renderTokens pre = renderTokens p1 ++ T1 ++ renderTokens p2 := by
        rw [hp, renderTokens_append]
        simp [renderTokens, Token.render]
      have hlen := congrArg List.length (h2.symm.trans (hA.trans h1.symm))
      simp only [List.length_append] at hlen
      omega
    have hpost : Token.text T1 ∉ post := by
      intro hin
      obtain ⟨q1, q2, hq⟩ := List.append_of_mem hin
      have hF2 : (renderTokens pre ++ T1 ++ renderTokens q1) ++ T1 ++ renderTokens q2 =
          A ++ T1 ++ B := by
        rw [← hF, hq, renderTokens_append]
        simp [renderTokens, Token.render]
      have h1 := honce _ _ hF2
      have hlen := congrArg List.length (h1.trans hA.symm)
      simp only [List.length_append] at hlen
      omega
    have hcount1 : doc.countText T1 = 1 := by
      rw [hcount, htoks, List.count_append, List.count_cons_self,
        List.count_eq_zero_of_not_mem hpre, List.count_eq_zero_of_not_mem hpost]
    have hmap : toks.map (Token.mapText (swapText T1 T2)) = pre ++ .text T2 :: post := by
      rw [htoks, List.map_append, List.map_cons, map_mapText_of_not_mem T1 T2 pre hpre,
        map_mapText_of_not_mem T1 T2 post hpost]
      simp [Token.mapText, swapText]
    have hvalid' : lexValid (pre ++ .text T2 :: post) = true := by
      apply lexValid_replace_text T1 T2 pre post (by rw [← htoks]; exact hvalid)
      simp only [Token.valid, Bool.and_eq_true, Bool.not_eq_true', List.all_eq_true]
      exact ⟨by simpa using hT2, hT2text⟩
    have hrender' : renderTokens (pre ++ .text T2 :: post) = A ++ T2 ++ B := by
      rw [renderTokens_append]
      simp [renderTokens, Token.render, hA, hB]
    have hlex' := lex_complete _ hvalid'
    rw [hrender'] at hlex'
    have hbuild := build_mapText (swapText T1 T2) toks [] none doc hparse
    simp only [List.map_nil, Option.map_none', hmap] at hbuild
    refine ⟨?_, hcount1⟩
    unfold parseXml
    rw [hlex']
    exact hbuild

set_option maxRecDepth 100000 in
theorem selectedPlain_oneServer (password : GoString) :
    SelectedPlainPassword (settingsDoc [serverNode (str "codeartifact") password])
      (str "codeartifact") password :=
  ⟨[], serverNode (str "codeartifact") password, [], by rfl, fun _ hn => (nomatch hn),
    ⟨textElem "id" (str "codeartifact"), by rfl, by rfl⟩, by rfl⟩

/-! ## Claim C1: the writer replaces every occurrence -/

/-- C1 (writer substitution): when the settings file is readable and writable
and the old token `T1` is not empty, `updateSettings cfg T1 T2` returns and
leaves in the settings file the content `out` that is the old content with
every non-overlapping occurrence of `T1`, from left to right, replaced by `T2`
and every other byte kept (`out` is the only such content), no other file is
touched, and if `T1` occurs once, in `A ++ T1 ++ B`, the file becomes
`A ++ T2 ++ B`. -/
theorem updateSettings_replaces_every_occurrence (cfg : Configuration) (T1 T2 : GoString)
    (w : World) (f : File) (hT1 : T1 ≠ []) (hf : w.fs cfg.settings = some f)
    (hr : f.readable = true) (hw : f.writable = true) :
    ∃ out : GoString,
      (updateSettings cfg T1 T2 w).1 = .returned () ∧
      (updateSettings cfg T1 T2 w).2.fs cfg.settings = some { f with data := out } ∧
      (∀ p, p ≠ cfg.settings → (updateSettings cfg T1 T2 w).2.fs p = w.fs p) ∧
      ReplacedAll T1 T2 f.data out ∧
      (∀ out', ReplacedAll T1 T2 f.data out' → out' = out) ∧
      (∀ A B, f.data = A ++ T1 ++ B → OccursOnce T1 A B → out = A ++ T2 ++ B) := by
  obtain ⟨out, hrep, hspec⟩ := replaceAll_spec f.data T1 T2 hT1
  refine ⟨out, ?_, ?_, ?_, hspec, ?_, ?_⟩
  · rw [updateSettings_run cfg T1 T2 w f out hf hr hw hrep]
  · rw [updateSettings_run cfg T1 T2 w f out hf hr hw hrep]
    simp
  · intro p hp
    rw [updateSettings_run cfg T1 T2 w f out hf hr hw hrep]
    simp [hp]
  · intro out' h'
    exact replacedAll_functional _ _ _ _ _ h' hspec
  · intro A B hAB honce
    rw [hAB] at hspec
    exact replacedAll_once T1 T2 A B out hT1 honce hspec

set_option maxRecDepth 100000 in
/-- Witness of C1: the token `OLD123` replaced by `NEW456` in the file with one
server. -/
theorem updateSettings_replaces_every_occurrence_witness :
    str "OLD123" ≠ [] ∧
    ∃ out : GoString,
      (updateSettings exampleCfg (str "OLD123") (str "NEW456") (worldWith fileOneServer)).1 =
        .returned () ∧
      (updateSettings exampleCfg (str "OLD123") (str "NEW456") (worldWith fileOneServer)).2.fs
        exampleCfg.settings = some { data := out, readable := true, writable := true } ∧
      (∀ p, p ≠ exampleCfg.settings →
        (updateSettings exampleCfg (str "OLD123") (str "NEW456") (worldWith fileOneServer)).2.fs p =
          (worldWith fileOneServer).fs p) ∧
      ReplacedAll (str "OLD123") (str "NEW456") fileOneServer out ∧
      (∀ out', ReplacedAll (str "OLD123") (str "NEW456") fileOneServer out' → out' = out) ∧
      (∀ A B, fileOneServer = A ++ str "OLD123" ++ B → OccursOnce (str "OLD123") A B →
        out = A ++ str "NEW456" ++ B) :=
  ⟨by decide,
    updateSettings_replaces_every_occurrence exampleCfg (str "OLD123") (str "NEW456")
      (worldWith fileOneServer) { data := fileOneServer, readable := true, writable := true }
      (by decide) (by decide) rfl rfl⟩

/-! ## Claim C2: the reader and a server without id before the match -/

set_option maxRecDepth 100000 in
/-- C2 (code bug): on a well-formed settings file whose first server has no
`id` child and whose second server is `codeartifact` with password `OLD123`,
the reader panics (`element.InnerText()` on the nil result of
`SelectElement("id")`) instead of returning `OLD123`. -/
theorem reader_panics_before_matching_server :
    parseXml fileServerWithoutIdFirst =
      .ok (settingsDoc [elem "server" [textElem "username" (str "admin")],
        serverNode (str "codeartifact") (str "OLD123")]) ∧
    (getCodeArtifactTokenFromSettings (exampleEnv (str "NEW456")) exampleCfg
      (worldWith fileServerWithoutIdFirst)).1 = .panicked :=
  ⟨by rfl, by decide⟩

/-! ## Claim C3: the reader and a server without id, no match -/

set_option maxRecDepth 100000 in
/-- C3 (code bug): on a well-formed settings file whose only server has no `id`
child, so that no server has the id `codeartifact`, the reader panics instead
of returning the error `Could not find server codeartifact`. -/
theorem reader_panics_without_matching_server :
    parseXml fileServerWithoutId =
      .ok (settingsDoc [elem "server" [textElem "username" (str "admin"),
        textElem "password" (str "secret")]]) ∧
    (getCodeArtifactTokenFromSettings (exampleEnv (str "NEW456")) exampleCfg
      (worldWith fileServerWithoutId)).1 = .panicked ∧
    (getCodeArtifactTokenFromSettings (exampleEnv (str "NEW456")) exampleCfg
      (worldWith fileServerWithoutId)).1 ≠
        .returned ([], some (errors.New (str "Could not find server codeartifact"))) :=
  ⟨by rfl, by decide, by decide⟩

/-! ## Claim C4: settings file that cannot be opened -/

/-- C4 (settings file that cannot be opened): when `os.Open` fails on the
settings path with `err`, a path error, the reader returns `err`,
`manageTokens` returns the same `err` having only logged the configuration and
tried to open the file (no call of the fetcher or of the writer, every file as
before), and the action that called it (`numFlags ≠ 0`: the action reaches
`manageTokens` only when a flag is set) logs the error and exits with
status 1. -/
theorem settings_cannot_be_opened (env : Env) (numFlags : Nat) (cfg : Configuration)
    (w : World) (err : GoError) (hopen : (os.Open cfg.settings w).1 = .error err)
    (hflags : numFlags ≠ 0) :
    (∃ reason, err = .PathError "open" cfg.settings reason) ∧
    (getCodeArtifactTokenFromSettings env cfg w).1 = .returned ([], some err) ∧
    manageTokens env cfg w =
      (.returned (some err),
        { fs := w.fs
          trace := w.trace ++ [.log .Info (str "Using owner: " ++ cfg.domain),
            .log .Info (str "Using domain owner: " ++ cfg.domainOwner),
            .log .Info (str "Using server: " ++ cfg.server), .osOpen cfg.settings] }) ∧
    mainAction env numFlags cfg w =
      (.exited 1,
        { fs := w.fs
          trace := w.trace ++ [.log .Info (str "Using owner: " ++ cfg.domain),
            .log .Info (str "Using domain owner: " ++ cfg.domainOwner),
            .log .Info (str "Using server: " ++ cfg.server), .osOpen cfg.settings,
            .log .Fatal (str "Encountered exception, exiting: " ++ err.Error)] }) ∧
    (mainAction env numFlags cfg w).1.exitStatus ≠ 0 := by
  have hreason : ∃ reason, err = .PathError "open" cfg.settings reason := by
    unfold os.Open at hopen
    simp only [World.emit] at hopen
    cases hf : w.fs cfg.settings with
    | none =>
      simp only [hf] at hopen
      injection hopen with h
      exact ⟨_, h.symm⟩
    | some f =>
      simp only [hf] at hopen
      by_cases hr : f.readable = true
      · simp [hr] at hopen
      · simp only [hr, Bool.false_eq_true, if_false] at hopen
        injection hopen with h
        exact ⟨_, h.symm⟩
  have hmanage : manageTokens env cfg w =
      (.returned (some err),
        { fs := w.fs
          trace := w.trace ++ [.log .Info (str "Using owner: " ++ cfg.domain),
            .log .Info (str "Using domain owner: " ++ cfg.domainOwner),
            .log .Info (str "Using server: " ++ cfg.server), .osOpen cfg.settings] }) := by
    unfold manageTokens
    simp only
    rw [reader_open_error env cfg _ err (by
      rw [osOpen_fst cfg.settings w _ (by simp [logConfiguration, log.Info, World.emit])]
      exact hopen)]
    simp [logConfiguration, log.Info, World.emit]
  refine ⟨hreason, ?_, hmanage, ?_, ?_⟩
  · rw [reader_open_error env cfg w err hopen]
  · unfold mainAction
    simp only [hflags, if_false, hmanage]
    simp [log.Fatal, World.emit]
  · unfold mainAction
    simp only [hflags, if_false, hmanage]
    simp [log.Fatal, Outcome.exitStatus]

set_option maxRecDepth 100000 in
/-- Witness of C4: no settings file at all, one flag set. -/
theorem settings_cannot_be_opened_witness :
    (os.Open exampleCfg.settings emptyWorld).1 =
      .error (.PathError "open" settingsPath "no such file or directory") ∧
    (1 : Nat) ≠ 0 ∧
    (getCodeArtifactTokenFromSettings (exampleEnv (str "NEW456")) exampleCfg emptyWorld).1 =
      .returned ([], some (.PathError "open" settingsPath "no such file or directory")) ∧
    (mainAction (exampleEnv (str "NEW456")) 1 exampleCfg emptyWorld).1.exitStatus ≠ 0 :=
  ⟨rfl, by decide,
    (settings_cannot_be_opened (exampleEnv (str "NEW456")) 1 exampleCfg emptyWorld
      (.PathError "open" settingsPath "no such file or directory") rfl (by decide)).2.1,
    (settings_cannot_be_opened (exampleEnv (str "NEW456")) 1 exampleCfg emptyWorld
      (.PathError "open" settingsPath "no such file or directory") rfl (by decide)).2.2.2.2⟩

/-! ## Claim C5: failure of the remote call -/

/-- C5 (code bug): when `GetAuthorizationToken` fails with the error `e`, the
error is dropped: `getCodeArtifactToken` never returns `e`, whatever output
comes with it, and with the nil output the SDK returns on failure it panics.
The error of `LoadDefaultConfig`, on the other hand, is returned unchanged. -/
theorem getCodeArtifactToken_drops_remote_error (parse : GoString → Except GoError Node)
    (e : GoError) (cfg : Configuration) (w : World) :
    (getCodeArtifactToken (failingEnv e) cfg w).1 = .panicked ∧
    (∀ (out : Option GetAuthorizationTokenOutput) (token : GoString),
      (getCodeArtifactToken
        { Parse := parse, LoadDefaultConfig := none,
          GetAuthorizationToken := fun _ _ => (out, some e) } cfg w).1 ≠
        .returned (token, some e)) ∧
    (∀ fetch : GoString → GoString → Option GetAuthorizationTokenOutput × Option GoError,
      (getCodeArtifactToken
        { Parse := parse, LoadDefaultConfig := some e, GetAuthorizationToken := fetch } cfg w).1 =
        .returned ([], some e)) := by
  refine ⟨rfl, ?_, fun _ => rfl⟩
  intro out token
  cases out with
  | none => simp [getCodeArtifactToken]
  | some o => simp [getCodeArtifactToken]

/-! ## Claim C6: end to end -/

/-- C6 (end to end), amended: the settings file is
`A ++ "<server><id>codeartifact</id><password>OLD123</password></server>" ++ B`,
readable and writable, it parses to a document in which that server is the one
the reader selects for `cfg.server = "codeartifact"` (the first with this id,
every server before it having an `id` child), `OLD123` occurs nowhere else in
the file, and the fetcher answers `NEW456`.  Then `manageTokens` returns nil
and the file becomes
`A ++ "<server><id>codeartifact</id><password>NEW456</password></server>" ++ B`,
every other file being as before. -/
theorem manageTokens_end_to_end (env : Env) (cfg : Configuration) (w : World) (f : File)
    (A B : GoString) (doc : Node) (hserver : cfg.server = str "codeartifact")
    (hf : w.fs cfg.settings = some f) (hr : f.readable = true) (hw : f.writable = true)
    (hdata : f.data = A ++ serverXml (str "codeartifact") (str "OLD123") ++ B)
    (hparse : env.Parse f.data = .ok doc)
    (hdoc : FirstServer doc (str "codeartifact") (str "OLD123"))
    (honce : OccursOnce (str "OLD123")
      (A ++ (str "<server><id>" ++ str "codeartifact" ++ str "</id><password>"))
      (str "</password></server>" ++ B))
    (hload : env.LoadDefaultConfig = none)
    (hfetch : (env.GetAuthorizationToken cfg.domain cfg.domainOwner).1 =
      some { AuthorizationToken := some (str "NEW456") }) :
    (manageTokens env cfg w).1 = .returned none ∧
    (manageTokens env cfg w).2.fs cfg.settings =
      some { f with data := A ++ serverXml (str "codeartifact") (str "NEW456") ++ B } ∧
    (∀ p, p ≠ cfg.settings → (manageTokens env cfg w).2.fs p = w.fs p) := by
  have hold : str "OLD123" ≠ [] := by decide
  have hnew : str "NEW456" ≠ [] := by decide
  obtain ⟨out, hrep, hspec⟩ := replaceAll_spec f.data (str "OLD123") (str "NEW456") hold
  have hshape : f.data =
      (A ++ (str "<server><id>" ++ str "codeartifact" ++ str "</id><password>")) ++
        str "OLD123" ++ (str "</password></server>" ++ B) := by
    rw [hdata]
    simp [serverXml, List.append_assoc]
  have hout : out = A ++ serverXml (str "codeartifact") (str "NEW456") ++ B := by
    rw [hshape] at hspec
    rw [replacedAll_once _ _ _ _ out hold honce hspec]
    simp [serverXml, List.append_assoc]
  have h1 := reader_found env cfg (logConfiguration cfg w) f doc (str "OLD123") hf hr hparse
    (by rw [hserver]; exact hdoc)
  have h2 := getCodeArtifactToken_run env cfg
    { fs := (logConfiguration cfg w).fs
      trace := (logConfiguration cfg w).trace ++ [.osOpen cfg.settings,
        .log .Debug (str "CodeArtifact Maven Password: " ++ str "OLD123")] }
    (str "NEW456") hload hfetch
  have h3 := updateSettings_run cfg (str "OLD123") (str "NEW456")
    { fs := (logConfiguration cfg w).fs
      trace := (logConfiguration cfg w).trace ++ [.osOpen cfg.settings,
        .log .Debug (str "CodeArtifact Maven Password: " ++ str "OLD123")] ++
        [.loadDefaultConfig, .getAuthorizationToken cfg.domain cfg.domainOwner,
          .log .Debug (str "CodeArtifact Token: " ++ str "NEW456")] }
    f out hf hr hw hrep
  rw [manageTokens_success env cfg w _ _ _ (str "OLD123") (str "NEW456") h1 hold h2 hnew h3]
  refine ⟨rfl, ?_, ?_⟩
  · simp [hout]
  · intro p hp
    simp [hp, logConfiguration_fs]

set_option maxRecDepth 100000 in
/-- Witness of C6: the file with the one server `codeartifact`. -/
theorem manageTokens_end_to_end_witness :
    (manageTokens (exampleEnv (str "NEW456")) exampleCfg (worldWith fileOneServer)).1 =
      .returned none ∧
    (manageTokens (exampleEnv (str "NEW456")) exampleCfg (worldWith fileOneServer)).2.fs
      exampleCfg.settings =
      some { data := str "<settings><servers>" ++
                serverXml (str "codeartifact") (str "NEW456") ++ str "</servers></settings>",
             readable := true, writable := true } ∧
    (∀ p, p ≠ exampleCfg.settings →
      (manageTokens (exampleEnv (str "NEW456")) exampleCfg (worldWith fileOneServer)).2.fs p =
        (worldWith fileOneServer).fs p) :=
  manageTokens_end_to_end (exampleEnv (str "NEW456")) exampleCfg (worldWith fileOneServer)
    { data := fileOneServer, readable := true, writable := true }
    (str "<settings><servers>") (str "</servers></settings>")
    (settingsDoc [serverNode (str "codeartifact") (str "OLD123")])
    rfl (by decide) rfl rfl (by decide) (by rfl) (firstServer_oneServer (str "OLD123"))
    occursOnce_fileOneServer rfl rfl

set_option maxRecDepth 100000 in
/-- Counterexample to C6 as stated: the settings file is `A ++ S ++ B` with
`S` the server `codeartifact` with password `OLD123`, and `B` holds a second
server with the same password.  `manageTokens` returns nil, and the file
afterwards is not `A ++ S' ++ B` with `S'` the server with password `NEW456`:
the password inside `B` was replaced as well. -/
theorem end_to_end_changes_surroundings :
    fileSamePassword =
      str "<settings><servers>" ++ serverXml (str "codeartifact") (str "OLD123") ++
        (serverXml (str "other") (str "OLD123") ++ str "</servers></settings>") ∧
    parseXml fileSamePassword =
      .ok (settingsDoc [serverNode (str "codeartifact") (str "OLD123"),
        serverNode (str "other") (str "OLD123")]) ∧
    (manageTokens (exampleEnv (str "NEW456")) exampleCfg (worldWith fileSamePassword)).1 =
      .returned none ∧
    (manageTokens (exampleEnv (str "NEW456")) exampleCfg (worldWith fileSamePassword)).2.fs
      settingsPath =
      some { data := str "<settings><servers>" ++
                serverXml (str "codeartifact") (str "NEW456") ++
                (serverXml (str "other") (str "NEW456") ++ str "</servers></settings>"),
             readable := true, writable := true } ∧
    (manageTokens (exampleEnv (str "NEW456")) exampleCfg (worldWith fileSamePassword)).2.fs
      settingsPath ≠
      some { data := str "<settings><servers>" ++
                serverXml (str "codeartifact") (str "NEW456") ++
                (serverXml (str "other") (str "OLD123") ++ str "</servers></settings>"),
             readable := true, writable := true } :=
  ⟨by decide, by rfl, by decide, by decide, by decide⟩

/-! ## Claim C7: equal tokens -/

/-- C7 (equal tokens): `updateSettings cfg T2 T2` leaves every file as it was,
whatever the content and the token (the empty token included); when the
settings file is readable and writable it returns after writing back the
content it read. -/
theorem updateSettings_same_token (cfg : Configuration) (T2 : GoString) (w : World) :
    (updateSettings cfg T2 T2 w).2.fs = w.fs ∧
    (∀ f : File, w.fs cfg.settings = some f → f.readable = true → f.writable = true →
      updateSettings cfg T2 T2 w =
        (.returned (),
          { fs := w.fs
            trace := w.trace ++ [.readFile cfg.settings, .writeFile cfg.settings f.data,
              .log .Info (str "✅ Updated token!")] })) := by
  refine ⟨updateSettings_fs_same cfg T2 w, ?_⟩
  intro f hf hr hw
  rw [updateSettings_run cfg T2 T2 w f f.data hf hr hw (replaceAll_self _ _),
    fs_write_back w cfg.settings f hf]

set_option maxRecDepth 100000 in
/-- Witness of C7: the token `OLD123` replaced by itself in the file with one
server. -/
theorem updateSettings_same_token_witness :
    (updateSettings exampleCfg (str "OLD123") (str "OLD123") (worldWith fileOneServer)).2.fs =
      (worldWith fileOneServer).fs ∧
    updateSettings exampleCfg (str "OLD123") (str "OLD123") (worldWith fileOneServer) =
      (.returned (),
        { fs := (worldWith fileOneServer).fs
          trace := (worldWith fileOneServer).trace ++ [.readFile exampleCfg.settings,
            .writeFile exampleCfg.settings fileOneServer,
            .log .Info (str "✅ Updated token!")] }) :=
  ⟨(updateSettings_same_token exampleCfg (str "OLD123") (worldWith fileOneServer)).1,
    (updateSettings_same_token exampleCfg (str "OLD123") (worldWith fileOneServer)).2
      { data := fileOneServer, readable := true, writable := true } (by decide) rfl rfl⟩

/-! ## Claim C8: old token absent -/

/-- C8 (old token absent): when `T1` does not occur in the content of the
settings file (readable and writable), `updateSettings cfg T1 T2` writes back
the content it read, every file is as before, and it returns after logging the
success message, the only message it logs. -/
theorem updateSettings_absent_token (cfg : Configuration) (T1 T2 : GoString) (w : World)
    (f : File) (habs : ¬ T1 <:+: f.data) (hf : w.fs cfg.settings = some f)
    (hr : f.readable = true) (hw : f.writable = true) :
    updateSettings cfg T1 T2 w =
      (.returned (),
        { fs := w.fs
          trace := w.trace ++ [.readFile cfg.settings, .writeFile cfg.settings f.data,
            .log .Info (str "✅ Updated token!")] }) := by
  rw [updateSettings_run cfg T1 T2 w f f.data hf hr hw (replaceAll_of_absent _ _ _ habs),
    fs_write_back w cfg.settings f hf]

set_option maxRecDepth 100000 in
/-- Witness of C8: the token `ZZZ999` does not occur in the file with one
server. -/
theorem updateSettings_absent_token_witness :
    ¬ str "ZZZ999" <:+: fileOneServer ∧
    updateSettings exampleCfg (str "ZZZ999") (str "NEW456") (worldWith fileOneServer) =
      (.returned (),
        { fs := (worldWith fileOneServer).fs
          trace := (worldWith fileOneServer).trace ++ [.readFile exampleCfg.settings,
            .writeFile exampleCfg.settings fileOneServer,
            .log .Info (str "✅ Updated token!")] }) :=
  ⟨by decide,
    updateSettings_absent_token exampleCfg (str "ZZZ999") (str "NEW456")
      (worldWith fileOneServer) { data := fileOneServer, readable := true, writable := true }
      (by decide) (by decide) rfl rfl⟩

/-! ## Claim C9: read after update -/

/-- C9 (read after update), amended: the settings file, readable and writable,
lies in the fragment of XML the parser `parseXml` covers and parses to `doc`;
the server the reader selects in `doc` for `cfg.server` holds the non-empty
token `T1` as the plain text of its `password` child; `T1` occurs in the file
only there (the file is `A ++ T1 ++ B` and `T1` occurs once); the new token
`T2` is non-empty character data.  Then the reader returns `T1`,
`updateSettings cfg T1 T2` returns and leaves `A ++ T2 ++ B` in the file, this
content is still well-formed (it parses, to a document in which the selected
server holds `T2`), and the reader returns `T2` on the updated file. -/
theorem read_after_update (env : Env) (cfg : Configuration) (w : World) (f : File)
    (A B T1 T2 : GoString) (doc : Node) (hparser : env.Parse = parseXml)
    (hf : w.fs cfg.settings = some f) (hr : f.readable = true) (hw : f.writable = true)
    (hdata : f.data = A ++ T1 ++ B) (honce : OccursOnce T1 A B)
    (hparse : parseXml f.data = .ok doc)
    (hsel : SelectedPlainPassword doc cfg.server T1)
    (hT1 : T1 ≠ []) (hT2 : T2 ≠ []) (hT2text : ∀ c ∈ T2, isTextByte c = true) :
    (getCodeArtifactTokenFromSettings env cfg w).1 = .returned (T1, none) ∧
    (updateSettings cfg T1 T2 w).1 = .returned () ∧
    (updateSettings cfg T1 T2 w).2.fs cfg.settings = some { f with data := A ++ T2 ++ B } ∧
    (∃ doc', parseXml (A ++ T2 ++ B) = .ok doc' ∧
      SelectedPlainPassword doc' cfg.server T2) ∧
    (getCodeArtifactTokenFromSettings env cfg (updateSettings cfg T1 T2 w).2).1 =
      .returned (T2, none) := by
  have hread := reader_found env cfg w f doc T1 hf hr (by rw [hparser]; exact hparse)
    (selected_first doc cfg.server T1 hsel)
  obtain ⟨out, hrep, hspec⟩ := replaceAll_spec f.data T1 T2 hT1
  have hout : out = A ++ T2 ++ B := by
    rw [hdata] at hspec
    exact replacedAll_once T1 T2 A B out hT1 honce hspec
  subst hout
  have hrun := updateSettings_run cfg T1 T2 w f (A ++ T2 ++ B) hf hr hw hrep
  rw [hdata] at hparse
  obtain ⟨hparse', hcount⟩ :=
    parse_after_swap A B T1 T2 cfg.server doc hparse hsel hT1 honce hT2 hT2text
  have hsel' := selected_mapText doc cfg.server T1 T2 hsel hcount
  refine ⟨by rw [hread], by rw [hrun], by rw [hrun]; simp, ⟨_, hparse', hsel'⟩, ?_⟩
  rw [hrun]
  rw [reader_found env cfg _ { f with data := A ++ T2 ++ B } _ T2 (by simp) hr
    (by rw [hparser]; exact hparse') (selected_first _ cfg.server T2 hsel')]

set_option maxRecDepth 100000 in
/-- Witness of C9: the file with one server, `OLD123` replaced by `NEW456`. -/
theorem read_after_update_witness :
    (getCodeArtifactTokenFromSettings (exampleEnv (str "NEW456")) exampleCfg
      (worldWith fileOneServer)).1 = .returned (str "OLD123", none) ∧
    (updateSettings exampleCfg (str "OLD123") (str "NEW456") (worldWith fileOneServer)).1 =
      .returned () ∧
    (updateSettings exampleCfg (str "OLD123") (str "NEW456") (worldWith fileOneServer)).2.fs
      exampleCfg.settings =
      some { data := str "<settings><servers>" ++ (str "<server><id>" ++ str "codeartifact" ++
                str "</id><password>") ++ str "NEW456" ++
                (str "</password></server>" ++ str "</servers></settings>"),
             readable := true, writable := true } ∧
    (∃ doc', parseXml (str "<settings><servers>" ++ (str "<server><id>" ++
        str "codeartifact" ++ str "</id><password>") ++ str "NEW456" ++
        (str "</password></server>" ++ str "</servers></settings>")) = .ok doc' ∧
      SelectedPlainPassword doc' exampleCfg.server (str "NEW456")) ∧
    (getCodeArtifactTokenFromSettings (exampleEnv (str "NEW456")) exampleCfg
      (updateSettings exampleCfg (str "OLD123") (str "NEW456") (worldWith fileOneServer)).2).1 =
      .returned (str "NEW456", none) :=
  read_after_update (exampleEnv (str "NEW456")) exampleCfg (worldWith fileOneServer)
    { data := fileOneServer, readable := true, writable := true }
    (str "<settings><servers>" ++ (str "<server><id>" ++ str "codeartifact" ++
      str "</id><password>"))
    (str "</password></server>" ++ str "</servers></settings>")
    (str "OLD123") (str "NEW456")
    (settingsDoc [serverNode (str "codeartifact") (str "OLD123")])
    rfl (by decide) rfl rfl (by decide) occursOnce_fileOneServer (by rfl)
    (selectedPlain_oneServer (str "OLD123")) (by decide) (by decide) (by decide)

set_option maxRecDepth 100000 in
/-- Counterexample to C9 as stated: the password `art` of the server
`codeartifact` also occurs inside the id.  The reader returns `art`; after
`updateSettings cfg "art" "NEW456"` the id reads `codeNEW456ifact` and the
reader no longer finds the server `codeartifact`. -/
theorem update_loses_the_server :
    (getCodeArtifactTokenFromSettings (exampleEnv (str "NEW456")) exampleCfg
      (worldWith filePasswordInsideId)).1 = .returned (str "art", none) ∧
    (updateSettings exampleCfg (str "art") (str "NEW456") (worldWith filePasswordInsideId)).1 =
      .returned () ∧
    (updateSettings exampleCfg (str "art") (str "NEW456")
      (worldWith filePasswordInsideId)).2.fs settingsPath =
      some { data := settingsXml (serverXml (str "codeNEW456ifact") (str "NEW456")),
             readable := true, writable := true } ∧
    (getCodeArtifactTokenFromSettings (exampleEnv (str "NEW456")) exampleCfg
      (updateSettings exampleCfg (str "art") (str "NEW456")
        (worldWith filePasswordInsideId)).2).1 =
      .returned ([], some (errors.New (str "Could not find server codeartifact"))) :=
  ⟨by decide, by decide, by decide, by decide⟩

set_option maxRecDepth 100000 in
/-- Why the plain text is asked for: when the password of the selected server
is split by a child element, the reader returns `OLD123` although these bytes
occur only once, in another server; the update changes that other server and
the reader still returns `OLD123`. -/
theorem split_password_keeps_old_token :
    (getCodeArtifactTokenFromSettings (exampleEnv (str "NEW456")) exampleCfg
      (worldWith fileSplitPassword)).1 = .returned (str "OLD123", none) ∧
    (updateSettings exampleCfg (str "OLD123") (str "NEW456")
      (worldWith fileSplitPassword)).2.fs settingsPath =
      some { data := settingsXml (str
                "<server><id>codeartifact</id><password>OLD<b></b>123</password></server>" ++
                serverXml (str "other") (str "NEW456")),
             readable := true, writable := true } ∧
    (getCodeArtifactTokenFromSettings (exampleEnv (str "NEW456")) exampleCfg
      (updateSettings exampleCfg (str "OLD123") (str "NEW456")
        (worldWith fileSplitPassword)).2).1 = .returned (str "OLD123", none) :=
  ⟨by decide, by decide, by decide⟩

set_option maxRecDepth 100000 in
/-- Why the new token is asked to be character data: with the new token `<`
the updated file is no longer well-formed and the reader returns the error of
the parser. -/
theorem markup_token_breaks_the_file :
    (updateSettings exampleCfg (str "OLD123") (str "<") (worldWith fileOneServer)).2.fs
      settingsPath =
      some { data := settingsXml (serverXml (str "codeartifact") (str "<")),
             readable := true, writable := true } ∧
    parseXml (settingsXml (serverXml (str "codeartifact") (str "<"))) = .error xmlError ∧
    (getCodeArtifactTokenFromSettings (exampleEnv (str "<")) exampleCfg
      (updateSettings exampleCfg (str "OLD123") (str "<") (worldWith fileOneServer)).2).1 =
      .returned ([], some xmlError) :=
  ⟨by decide, by rfl, by decide⟩

/-! ## Claim C10: what a nil error of manageTokens means -/

/-- C10 (what a nil error means), amended: `manageTokens` returns a nil error
only if it ran `updateSettings` with the token of the reader as old token and
the token of the fetcher as new token, both non-empty, and `updateSettings`
returned, or else the reader or the fetcher returned an empty token with a nil
error and no file was written; and whenever the reader or the fetcher returns a
non-nil error, `manageTokens` returns that error and no file is written. -/
theorem manageTokens_nil_error (env : Env) (cfg : Configuration) (w : World) :
    (∀ w', manageTokens env cfg w = (.returned none, w') →
      (∃ T1 w1 T2 w2,
        getCodeArtifactTokenFromSettings env cfg (logConfiguration cfg w) =
          (.returned (T1, none), w1) ∧ T1 ≠ [] ∧
        getCodeArtifactToken env cfg w1 = (.returned (T2, none), w2) ∧ T2 ≠ [] ∧
        updateSettings cfg T1 T2 w2 = (.returned (), w')) ∨
      (getCodeArtifactTokenFromSettings env cfg (logConfiguration cfg w) =
          (.returned ([], none), w') ∧ w'.fs = w.fs) ∨
      (∃ T1 w1,
        getCodeArtifactTokenFromSettings env cfg (logConfiguration cfg w) =
          (.returned (T1, none), w1) ∧ T1 ≠ [] ∧
        getCodeArtifactToken env cfg w1 = (.returned ([], none), w') ∧ w'.fs = w.fs)) ∧
    (∀ T1 e w1,
      getCodeArtifactTokenFromSettings env cfg (logConfiguration cfg w) =
        (.returned (T1, some e), w1) →
      manageTokens env cfg w = (.returned (some e), w1) ∧ w1.fs = w.fs) ∧
    (∀ T1 w1 T2 e w2,
      getCodeArtifactTokenFromSettings env cfg (logConfiguration cfg w) =
        (.returned (T1, none), w1) → T1 ≠ [] →
      getCodeArtifactToken env cfg w1 = (.returned (T2, some e), w2) →
      manageTokens env cfg w = (.returned (some e), w2) ∧ w2.fs = w.fs) := by
  have hfs1 := reader_fs env cfg (logConfiguration cfg w)
  refine ⟨?_, ?_, ?_⟩
  · intro w' h
    unfold manageTokens at h
    simp only at h
    rcases hread : getCodeArtifactTokenFromSettings env cfg (logConfiguration cfg w) with ⟨o1, w1⟩
    rw [hread] at h hfs1
    simp only at hfs1
    cases o1 with
    | exited c => simp at h
    | panicked => simp at h
    | returned p1 =>
      obtain ⟨T1, e1⟩ := p1
      simp only at h
      by_cases hc1 : T1 = [] ∨ e1 ≠ none
      · simp only [hc1, if_true, Prod.mk.injEq, Outcome.returned.injEq] at h
        obtain ⟨he, hw⟩ := h
        subst he hw
        rcases hc1 with hT | hne
        · subst hT
          exact Or.inr (Or.inl ⟨rfl, hfs1⟩)
        · exact absurd rfl hne
      · simp only [hc1, if_false] at h
        have hT1 : T1 ≠ [] := fun hT => hc1 (Or.inl hT)
        have he1 : e1 = none := by
          by_contra hne
          exact hc1 (Or.inr hne)
        subst he1
        have hfs2 := fetcher_fs env cfg w1
        rcases hfetch : getCodeArtifactToken env cfg w1 with ⟨o2, w2⟩
        rw [hfetch] at h hfs2
        simp only at hfs2
        cases o2 with
        | exited c => simp at h
        | panicked => simp at h
        | returned p2 =>
          obtain ⟨T2, e2⟩ := p2
          simp only at h
          by_cases hc2 : T2 = [] ∨ e2 ≠ none
          · simp only [hc2, if_true, Prod.mk.injEq, Outcome.returned.injEq] at h
            obtain ⟨he, hw⟩ := h
            subst he hw
            rcases hc2 with hT | hne
            · subst hT
              exact Or.inr (Or.inr ⟨T1, w1, rfl, hT1, hfetch, hfs2.trans hfs1⟩)
            · exact absurd rfl hne
          · simp only [hc2, if_false] at h
            have hT2 : T2 ≠ [] := fun hT => hc2 (Or.inl hT)
            have he2 : e2 = none := by
              by_contra hne
              exact hc2 (Or.inr hne)
            subst he2
            rcases hupd : updateSettings cfg T1 T2 w2 with ⟨o3, w3⟩
            rw [hupd] at h
            cases o3 with
            | exited c => simp at h
            | panicked => simp at h
            | returned u =>
              simp only [Prod.mk.injEq, true_and] at h
              subst h
              exact Or.inl ⟨T1, w1, T2, w2, rfl, hT1, hfetch, hT2, hupd⟩
  · intro T1 e w1 hread
    rw [hread] at hfs1
    refine ⟨?_, hfs1⟩
    unfold manageTokens
    simp [hread]
  · intro T1 w1 T2 e w2 hread hT1 hfetch
    rw [hread] at hfs1
    have hfs2 := fetcher_fs env cfg w1
    rw [hfetch] at hfs2
    refine ⟨?_, hfs2.trans hfs1⟩
    unfold manageTokens
    simp [hread, hT1, hfetch]

set_option maxRecDepth 100000 in
/-- Witness of C10: the run on the file with one server, the fetcher answering
`NEW456`, returns a nil error. -/
theorem manageTokens_nil_error_witness :
    (manageTokens (exampleEnv (str "NEW456")) exampleCfg (worldWith fileOneServer)).1 =
      .returned none ∧
    ((∃ T1 w1 T2 w2,
        getCodeArtifactTokenFromSettings (exampleEnv (str "NEW456")) exampleCfg
          (logConfiguration exampleCfg (worldWith fileOneServer)) =
          (.returned (T1, none), w1) ∧ T1 ≠ [] ∧
        getCodeArtifactToken (exampleEnv (str "NEW456")) exampleCfg w1 =
          (.returned (T2, none), w2) ∧ T2 ≠ [] ∧
        updateSettings exampleCfg T1 T2 w2 =
          (.returned (),
            (manageTokens (exampleEnv (str "NEW456")) exampleCfg (worldWith fileOneServer)).2)) ∨
      (getCodeArtifactTokenFromSettings (exampleEnv (str "NEW456")) exampleCfg
          (logConfiguration exampleCfg (worldWith fileOneServer)) =
          (.returned ([], none),
            (manageTokens (exampleEnv (str "NEW456")) exampleCfg (worldWith fileOneServer)).2) ∧
        (manageTokens (exampleEnv (str "NEW456")) exampleCfg (worldWith fileOneServer)).2.fs =
          (worldWith fileOneServer).fs) ∨
      (∃ T1 w1,
        getCodeArtifactTokenFromSettings (exampleEnv (str "NEW456")) exampleCfg
          (logConfiguration exampleCfg (worldWith fileOneServer)) =
          (.returned (T1, none), w1) ∧ T1 ≠ [] ∧
        getCodeArtifactToken (exampleEnv (str "NEW456")) exampleCfg w1 =
          (.returned ([], none),
            (manageTokens (exampleEnv (str "NEW456")) exampleCfg (worldWith fileOneServer)).2) ∧
        (manageTokens (exampleEnv (str "NEW456")) exampleCfg (worldWith fileOneServer)).2.fs =
          (worldWith fileOneServer).fs)) :=
  ⟨by decide,
    (manageTokens_nil_error (exampleEnv (str "NEW456")) exampleCfg (worldWith fileOneServer)).1
      _ (Prod.ext (by decide) rfl)⟩

set_option maxRecDepth 100000 in
/-- Counterexample to C10 as stated: the server `codeartifact` has an empty
password; the reader returns the empty token with a nil error and
`manageTokens` returns a nil error although neither the fetcher nor the writer
was called (the trace holds no `readFile` and no `writeFile`). -/
theorem nil_error_without_writer :
    parseXml fileEmptyPassword =
      .ok (settingsDoc [elem "server" [textElem "id" (str "codeartifact"),
        elem "password" []]]) ∧
    (getCodeArtifactTokenFromSettings (exampleEnv (str "NEW456")) exampleCfg
      (worldWith fileEmptyPassword)).1 = .returned ([], none) ∧
    (manageTokens (exampleEnv (str "NEW456")) exampleCfg (worldWith fileEmptyPassword)).1 =
      .returned none ∧
    (manageTokens (exampleEnv (str "NEW456")) exampleCfg (worldWith fileEmptyPassword)).2.trace =
      [.log .Info (str "Using owner: my-domain"),
        .log .Info (str "Using domain owner: 123456789012"),
        .log .Info (str "Using server: codeartifact"),
        .osOpen settingsPath,
        .log .Debug (str "CodeArtifact Maven Password: ")] ∧
    (manageTokens (exampleEnv (str "NEW456")) exampleCfg (worldWith fileEmptyPassword)).2.fs
      settingsPath = some { data := fileEmptyPassword, readable := true, writable := true } :=
  ⟨by rfl, by decide, by decide, by decide, by decide⟩

end Codeartoken
